import Mathlib

/-
Verification of the DMXX multi-universe DMX512 lighting control engine
(src/backend/dmx_interface.py, src/backend/dmx_inputs.py,
src/backend/api/scenes.py) against its natural-language specification.

The Python source is shallowly embedded: channel frames are lists of
naturals, Python dicts keyed by universe id become association lists (so
iteration order matches dict insertion order), Python float arithmetic is
modelled exactly over the rationals, Python round() is modelled by
pythonRound (round half to even) and Python int() by pythonTrunc
(truncation toward zero).
-/

set_option maxRecDepth 100000

namespace DMXX

/-- Python max(0, min(255, v)) on an integer value, as used by
DMXUniverse.set_all. -/
def clamp255 (v : ℤ) : ℕ := (max 0 (min 255 v)).toNat

/-- Python round(): round to nearest, ties to even (banker's rounding). -/
def pythonRound (q : ℚ) : ℤ :=
  let f := ⌊q⌋
  let r := q - (f : ℚ)
  if r < 1/2 then f
  else if 1/2 < r then f + 1
  else if f % 2 = 0 then f else f + 1

/-- Python int() on a float: truncation toward zero. -/
def pythonTrunc (q : ℚ) : ℤ := if q < 0 then -⌊-q⌋ else ⌊q⌋

/-! ## Universe frame (dmx_interface.py, class DMXUniverse, lines 18-48)

A universe's `channels` attribute is a 512-entry list of octets; the
mutators below mirror its methods.  Channel and value arguments are
integers as in Python (they may be negative or too large). -/

/-- DMXUniverse.set_channel (lines 26-29): write one slot, but only when
both the channel (1-512) and the value (0-255) are in range; out-of-range
writes are silently discarded, leaving the frame unchanged. -/
def DMXUniverse.set_channel (channels : List ℕ) (channel value : ℤ) : List ℕ :=
  if 1 ≤ channel ∧ channel ≤ 512 ∧ 0 ≤ value ∧ value ≤ 255 then
    channels.set (channel - 1).toNat value.toNat
  else channels

/-- DMXUniverse.get_channel (lines 31-35): read one slot, 0 when the
channel is out of range (the frame always has 512 entries in the source;
getD supplies the same default). -/
def DMXUniverse.get_channel (channels : List ℕ) (channel : ℤ) : ℕ :=
  if 1 ≤ channel ∧ channel ≤ 512 then channels.getD (channel - 1).toNat 0 else 0

/-- DMXUniverse.set_all (lines 37-40): overwrite slot i with the clamped
value for each i below min(|values|, 512); remaining slots keep their old
value. -/
def DMXUniverse.set_all (channels : List ℕ) (values : List ℤ) : List ℕ :=
  channels.mapIdx fun i old =>
    match (values.take 512)[i]? with
    | some v => clamp255 v
    | none => old

/-- DMXUniverse.blackout (lines 42-44): zero every slot. -/
def DMXUniverse.blackoutFrame : List ℕ := List.replicate 512 0

/-! ## Art-Net input parsing (dmx_inputs.py, ArtNetInput._parse_artnet_packet,
lines 193-231) -/

/-- The 8-byte packet header "Art-Net" followed by a NUL. -/
def artnetHeaderBytes : List ℕ := [65, 114, 116, 45, 78, 101, 116, 0]

/-- Result of an accepted ArtDmx packet: the sequence byte and the
512-slot channel frame handed to the callback. -/
structure ArtNetParsed where
  sequence : ℕ
  channels : List ℕ
  deriving DecidableEq, Repr

/-- ArtNetInput._parse_artnet_packet (dmx_inputs.py lines 193-231): drop
the datagram (returning none, so the callback is not invoked) when it is
shorter than 18 bytes, lacks the Art-Net header, carries an opcode other
than 0x5000 (little-endian at bytes 8-9), or carries a wire universe
(little-endian at bytes 14-15) different from the configured one;
otherwise take min(length, 512) payload bytes from offset 18 and
right-pad with zeros to 512 slots. -/
def parseArtnetPacket (data : List ℕ) (artnetUniverse : ℕ) : Option ArtNetParsed :=
  if data.length < 18 then none
  else if data.take 8 ≠ artnetHeaderBytes then none
  else
    let opcode := data.getD 8 0 + 256 * data.getD 9 0
    if opcode ≠ 0x5000 then none
    else
      let sequence := data.getD 12 0
      let wireUniverse := data.getD 14 0 + 256 * data.getD 15 0
      let length := 256 * data.getD 16 0 + data.getD 17 0
      if wireUniverse ≠ artnetUniverse then none
      else
        let dmx := (data.drop 18).take (min length 512)
        some ⟨sequence, dmx ++ List.replicate (512 - dmx.length) 0⟩

/-- The packet counter after processing one datagram: incremented exactly
when the packet is accepted (dmx_inputs.py line 226). -/
def artnetPacketCount (data : List ℕ) (artnetUniverse count : ℕ) : ℕ :=
  match parseArtnetPacket data artnetUniverse with
  | some _ => count + 1
  | none => count

/-! ## Scene fade steps (api/scenes.py, apply_fade, lines 454-506)

apply_fade computes, for each step 1..steps and each target slot,
int(start + (target - start) * progress) with progress = step / steps
(line 485).  Its crossfade parameter (line 457) is accepted but never
read anywhere in the body, so fade and crossfade recalls interpolate
identically from the slot's current value. -/

/-- One interpolation step of apply_fade for one slot (scenes.py line
485).  The crossfade flag is threaded exactly as in the source: it is a
parameter that the computation never uses. -/
def applyFadeStepValue (crossfade : Bool) (start target : ℕ) (step steps : ℕ) : ℤ :=
  pythonTrunc ((start : ℚ) + ((target : ℚ) - (start : ℚ)) * ((step : ℚ) / (steps : ℚ)))

/-- Modelled from the spec: the crossfade transition of section 4.7
interpolates toward the target from 0 instead of from the current value.
This definition follows the spec's words; it is absent from the source
(apply_fade ignores its crossfade flag) and exists only for comparison. -/
def specCrossfadeStepValue (target : ℕ) (step steps : ℕ) : ℤ :=
  pythonTrunc (((target : ℚ) - 0) * ((step : ℚ) / (steps : ℚ)))

/-! ## Data model of the DMXInterface facade (dmx_interface.py, lines 51-114)

Python dicts become association lists so that iteration order matches
dict insertion order; helper functions below give lookup and
update-or-append with dict semantics. -/

/-- Lookup in an association list (Python dict d.get(k)). -/
def alGet {α β : Type} [DecidableEq α] (l : List (α × β)) (k : α) : Option β :=
  (l.find? fun p => decide (p.1 = k)).map (·.2)

/-- Lookup with default (Python dict d.get(k, d0)). -/
def alGetD {α β : Type} [DecidableEq α] (l : List (α × β)) (k : α) (d : β) : β :=
  (alGet l k).getD d

/-- Update the binding of k in place when present (keeping its position,
as a Python dict assignment does; keys are unique) or append a new
binding. -/
def alSet {α β : Type} [DecidableEq α] (l : List (α × β)) (k : α) (v : β) : List (α × β) :=
  match l with
  | [] => [(k, v)]
  | p :: tl => if p.1 = k then (k, v) :: tl else p :: alSet tl k v

/-- Passthrough mode of a universe (set_passthrough, lines 584-612). -/
inductive PTMode
  | off
  | viewOnly
  | fadersOutput
  | outputOnly
  deriving DecidableEq, Repr

/-- HTP or LTP merge mode of the passthrough config. -/
inductive MergeMode
  | htp
  | ltp
  deriving DecidableEq, Repr

/-- Per-universe passthrough configuration dict, with the default values
the source supplies at each .get call site. -/
structure PassthroughConfig where
  passthroughMode : PTMode := PTMode.off
  mode : MergeMode := MergeMode.htp
  channelStart : ℕ := 1
  channelEnd : ℕ := 512
  deriving DecidableEq, Repr

/-- Target type tag of a channel-mapping destination or a group member. -/
inductive TargetType
  | channel
  | universeMaster
  | globalMaster
  deriving DecidableEq, Repr

/-- A dst_info dict of the channel map (set_channel_mapping, lines
629-643): optional fields exactly as in the source. -/
structure MapDest where
  targetType : TargetType := TargetType.channel
  universe? : Option ℕ := none
  channel? : Option ℕ := none
  targetUniverseId? : Option ℕ := none
  deriving DecidableEq, Repr

/-- Group mode (proportional, follow or color_mixer). -/
inductive GroupMode
  | follow
  | proportional
  | colorMixer
  deriving DecidableEq, Repr

/-- The color_state dict of a color_mixer group, with the source's
defaults (white). -/
structure ColorState where
  h : ℚ := 0
  s : ℚ := 0
  l : ℚ := 100
  deriving DecidableEq, Repr

/-- A group member dict.  The source reads universe_id and channel
unconditionally in membership tests and supplies base_value default 255;
colorRole is the optional color_role key used by color_mixer groups. -/
structure Member where
  targetType : TargetType := TargetType.channel
  universeId : ℕ := 0
  channel : ℕ := 0
  baseValue : ℕ := 255
  colorRole : Option String := none
  targetUniverseId? : Option ℕ := none
  deriving DecidableEq, Repr

/-- A group config dict.  master_universe and master_channel are fused
into physicalMaster, present exactly when both are truthy in the source
(universe ids and channels are positive). -/
structure Group where
  id : ℕ
  mode : GroupMode := GroupMode.follow
  enabled : Bool := true
  physicalMaster : Option (ℕ × ℕ) := none
  masterValue : ℕ := 0
  members : List Member := []
  colorState : ColorState := {}
  deriving DecidableEq, Repr

/-- Scope of a grandmaster change notification. -/
inductive GMScope
  | global
  | perUniverse (u : ℕ)
  deriving DecidableEq, Repr

/-- Observable effects of the facade: callback notifications
(_notify_callbacks and friends), websocket group broadcasts, and the wire
frames handed to the output transports by _send_universe. -/
inductive DMXEvent
  | channelChange (u c v : ℕ) (source : String)
  | blackoutChanged (active : Bool)
  | grandmasterChanged (scope : GMScope) (v : ℕ)
  | groupValueChanged (gid v : ℕ) (source : Option String)
  | sendFrame (u : ℕ) (frame : List ℕ)
  deriving DecidableEq, Repr

/-- The mutable state of the DMXInterface facade (constructor, lines
54-113), restricted to the fields the verified operations touch.  MIDI
fields, broadcast throttling clocks and the callback list are external
I/O concerns: notifications are recorded in the events trace instead. -/
structure DMXState where
  universes : List (ℕ × List ℕ) := []
  localValues : List (ℕ × List ℕ) := []
  lastAppliedInput : List (ℕ × List ℕ) := []
  jitterThreshold : ℕ := 2
  passthroughConfig : List (ℕ × PassthroughConfig) := []
  blackoutActive : Bool := false
  preBlackout : List (ℕ × List ℕ) := []
  inputBypassActive : Bool := false
  channelSources : ℕ → ℕ → Option String := fun _ _ => none
  mappingEnabled : Bool := false
  unmappedBehavior : String := "passthrough"
  globalGrandmaster : ℕ := 255
  universeGrandmasters : List (ℕ × ℕ) := []
  channelMap : List ((ℕ × ℕ) × List MapDest) := []
  groups : List Group := []
  masterToGroups : List ((ℕ × ℕ) × List ℕ) := []
  groupContributions : List ((ℕ × ℕ) × List (ℕ × ℕ)) := []
  parkedChannels : List (ℕ × List (ℕ × ℕ)) := []
  highlightActive : Bool := false
  highlightedChannels : List (ℕ × List ℕ) := []
  highlightDimLevel : ℕ := 0
  inputs : List ℕ := []
  events : List DMXEvent := []

/-- DMXInterface.is_channel_parked (2697-): channel in the parked dict of
its universe. -/
def isChannelParked (s : DMXState) (u c : ℕ) : Bool :=
  (alGet (alGetD s.parkedChannels u []) c).isSome

/-- DMXInterface._apply_channel_overrides (1319-1340): when highlight is
active overwrite slot i with 255 when channel i+1 is highlighted and with
the dim level otherwise (the source loop covers indices 0-511 of a
512-entry frame), then overwrite every parked channel with its locked
value, in dict order. -/
def applyChannelOverrides (s : DMXState) (channels : List ℕ) (u : ℕ) : List ℕ :=
  let result :=
    if s.highlightActive then
      let highlighted := alGetD s.highlightedChannels u []
      channels.mapIdx fun i old =>
        if i < 512 then (if (i + 1) ∈ highlighted then 255 else s.highlightDimLevel) else old
    else channels
  (alGetD s.parkedChannels u []).foldl (fun res p => res.set (p.1 - 1) p.2) result

/-- DMXInterface._apply_grandmaster_scaling (1342-1356): skip when both
grandmasters are 255, else scale each slot by
(universe_gm / 255) * (global_gm / 255), round and cap at 255. -/
def applyGrandmasterScaling (s : DMXState) (channels : List ℕ) (u : ℕ) : List ℕ :=
  let universeGm := alGetD s.universeGrandmasters u 255
  let globalGm := s.globalGrandmaster
  if universeGm = 255 ∧ globalGm = 255 then channels
  else
    channels.map fun (ch : ℕ) =>
      (min 255 (pythonRound ((ch : ℚ) * (((universeGm : ℚ) / 255) * ((globalGm : ℚ) / 255))))).toNat

/-- DMXInterface._send_universe (1358-1390): compose the wire frame
(overrides then grandmaster scaling) and hand it to every running output;
the sendFrame event records that wire frame.  The universe.active marker
and the async transport dispatch are not otherwise modelled. -/
def sendUniverse (s : DMXState) (u : ℕ) : DMXState :=
  match alGet s.universes u with
  | none => s
  | some channels =>
    { s with events := s.events ++
        [DMXEvent.sendFrame u (applyGrandmasterScaling s (applyChannelOverrides s channels u) u)] }

/-- The wire frame _send_universe would hand to the outputs of universe u
in state s (none when the universe does not exist). -/
def wireFrame (s : DMXState) (u : ℕ) : Option (List ℕ) :=
  (alGet s.universes u).map fun channels =>
    applyGrandmasterScaling s (applyChannelOverrides s channels u) u

/-- DMXInterface.set_global_grandmaster (1266-1283): clamp, store, resend
every universe, notify.  MIDI feedback is external I/O. -/
def setGlobalGrandmaster (s : DMXState) (value : ℤ) : DMXState :=
  let s1 := { s with globalGrandmaster := clamp255 value }
  let s2 := s1.universes.foldl (fun st p => sendUniverse st p.1) s1
  { s2 with events := s2.events ++ [DMXEvent.grandmasterChanged GMScope.global s2.globalGrandmaster] }

/-- DMXInterface.set_universe_grandmaster (1289-1306): clamp, store,
resend that universe, notify. -/
def setUniverseGrandmaster (s : DMXState) (u : ℕ) (value : ℤ) : DMXState :=
  let s1 := { s with universeGrandmasters := alSet s.universeGrandmasters u (clamp255 value) }
  let s2 := sendUniverse s1 u
  { s2 with events := s2.events ++
      [DMXEvent.grandmasterChanged (GMScope.perUniverse u) (alGetD s2.universeGrandmasters u 255)] }

/-! ## Group engine (dmx_interface.py, lines 1457-1930) -/

/-- Rational remainder a mod b, as Python float modulo computes it for
positive b: a - b * floor(a / b). -/
def qmod (a b : ℚ) : ℚ := a - b * ⌊a / b⌋

/-- DMXInterface._hsl_to_rgb (1457-1497): standard HSL to RGB over exact
rationals (the source computes in floats); int() conversions become
pythonTrunc. -/
def hslToRgb (h s l : ℚ) : ℤ × ℤ × ℤ :=
  let s1 := s / 100
  let l1 := l / 100
  if s1 = 0 then
    let val := pythonTrunc (l1 * 255)
    (val, val, val)
  else
    let c := (1 - |2 * l1 - 1|) * s1
    let x := c * (1 - |qmod (h / 60) 2 - 1|)
    let m := l1 - c / 2
    let rgb : ℚ × ℚ × ℚ :=
      if h < 60 then (c, x, 0)
      else if h < 120 then (x, c, 0)
      else if h < 180 then (0, c, x)
      else if h < 240 then (0, x, c)
      else if h < 300 then (x, 0, c)
      else (c, 0, x)
    (pythonTrunc ((rgb.1 + m) * 255), pythonTrunc ((rgb.2.1 + m) * 255),
     pythonTrunc ((rgb.2.2 + m) * 255))

/-- DMXInterface._color_role_to_value (1499-1564): map a color role to
its output value from the RGB triple. -/
def colorRoleToValue (role : String) (r g b : ℤ) : ℤ :=
  if role = "red" then r
  else if role = "green" then g
  else if role = "blue" then b
  else if role = "yellow" then min r g
  else if role = "cyan" then min g b
  else if role = "magenta" then min r b
  else if role = "white" then min r (min g b)
  else if role = "warm_white" then min r (min g b)
  else if role = "cool_white" then min r (min g b)
  else if role = "orange" then (if r > g ∧ b < min r g then min r (g * 2) else 0)
  else if role = "amber" then (if r > 0 ∧ g > 0 ∧ b < min r g then min r g else 0)
  else if role = "lime" then (if g > r ∧ b < min r g then min g (r * 2) else 0)
  else if role = "uv" then b
  else 0

/-- Update one channel source tag (the _channel_sources nested dict). -/
def setSource (f : ℕ → ℕ → Option String) (u c : ℕ) (tag : String) : ℕ → ℕ → Option String :=
  fun u' c' => if u' = u ∧ c' = c then some tag else f u' c'

/-- One member of the color_mixer write loop of _apply_group (lines
1596-1624): map the color role, scale by the master with int truncation
(line 1604), skip parked channels, write the slot, tag the source and
collect the affected universe. -/
def colorMixerStep (rgb : ℤ × ℤ × ℤ) (masterValue : ℕ)
    (acc : DMXState × List ℕ) (member : Member) : DMXState × List ℕ :=
  if member.targetType ≠ TargetType.channel then acc
  else
    match member.colorRole with
    | none => acc
    | some role =>
      let rawValue := colorRoleToValue role rgb.1 rgb.2.1 rgb.2.2
      let outputValue := pythonTrunc ((rawValue : ℚ) * (masterValue : ℚ) / 255)
      let uid := member.universeId
      let channel := member.channel
      if isChannelParked acc.1 uid channel then acc
      else
        match alGet acc.1.universes uid with
        | none => acc
        | some chans =>
          ({ acc.1 with
              universes := alSet acc.1.universes uid
                (DMXUniverse.set_channel chans channel outputValue),
              channelSources := setSource acc.1.channelSources uid channel "group" },
           if uid ∈ acc.2 then acc.2 else acc.2 ++ [uid])

/-- One member of the color_mixer notification loop of _apply_group
(lines 1627-1636). -/
def colorMixerNotify (st : DMXState) (member : Member) : DMXState :=
  if member.targetType ≠ TargetType.channel then st
  else
    let uid := member.universeId
    let channel := member.channel
    if uid ≠ 0 ∧ channel ≠ 0 then
      match alGet st.universes uid with
      | none => st
      | some chans =>
        { st with events := st.events ++
            [DMXEvent.channelChange uid channel
              (DMXUniverse.get_channel chans channel) "group"] }
    else st

/-- One member of the contribution loop of _apply_group (lines
1642-1677): compute follow/proportional output, dispatch virtual targets
to the grandmaster setters, record channel contributions. -/
def groupContribStep (group : Group) (groupId masterValue : ℕ)
    (acc : DMXState × List (ℕ × ℕ)) (member : Member) : DMXState × List (ℕ × ℕ) :=
  let outputValue : ℕ :=
    if group.mode = GroupMode.follow then masterValue
    else (pythonRound (((member.baseValue * masterValue : ℕ) : ℚ) / 255)).toNat
  match member.targetType with
  | TargetType.universeMaster =>
    match member.targetUniverseId? with
    | some tU => (setUniverseGrandmaster acc.1 tU outputValue, acc.2)
    | none => acc
  | TargetType.globalMaster => (setGlobalGrandmaster acc.1 outputValue, acc.2)
  | TargetType.channel =>
    let chKey := (member.universeId, member.channel)
    let contribs := alSet (alGetD acc.1.groupContributions chKey []) groupId outputValue
    ({ acc.1 with groupContributions := alSet acc.1.groupContributions chKey contribs },
     acc.2 ++ [chKey])

/-- One affected channel of the HTP write loop of _apply_group (lines
1679-1697): write the maximum of all group contributions, skipping
parked channels. -/
def groupHtpStep (acc : DMXState × List ℕ) (chKey : ℕ × ℕ) : DMXState × List ℕ :=
  let contribs := alGetD acc.1.groupContributions chKey []
  let htpValue := (contribs.map (·.2)).foldl max 0
  if isChannelParked acc.1 chKey.1 chKey.2 then acc
  else
    match alGet acc.1.universes chKey.1 with
    | none => acc
    | some chans =>
      ({ acc.1 with
          universes := alSet acc.1.universes chKey.1
            (DMXUniverse.set_channel chans chKey.2 htpValue),
          channelSources := setSource acc.1.channelSources chKey.1 chKey.2 "group" },
       if chKey.1 ∈ acc.2 then acc.2 else acc.2 ++ [chKey.1])

/-- The send-and-notify loop of _apply_group (lines 1699-1708). -/
def groupSendNotify (affectedChannels : List (ℕ × ℕ)) (st : DMXState) (uid : ℕ) : DMXState :=
  let st1 := sendUniverse st uid
  affectedChannels.foldl
    (fun st2 chKey =>
      if chKey.1 = uid then
        match alGet st2.universes uid with
        | none => st2
        | some chans =>
          { st2 with events := st2.events ++
              [DMXEvent.channelChange uid chKey.2
                (DMXUniverse.get_channel chans chKey.2) "group"] }
      else st2) st1

/-- DMXInterface._apply_group (1566-1708): apply a master value to every
member.  color_mixer groups convert their HSL state, map each member's
color role and scale by the master (int truncation, line 1604);
follow/proportional groups record a per-group contribution and write the
HTP maximum of all contributions, skipping parked channels.  Virtual
universe-master / global-master members call the grandmaster setters.
Affected universes are collected in first-write order (the source keeps
them in an unordered set). -/
def applyGroup (s : DMXState) (groupId : ℕ) (masterValue : ℕ) : DMXState :=
  match s.groups.find? (fun g => decide (g.id = groupId)) with
  | none => s
  | some group =>
    if ¬ group.enabled then s
    else if group.mode = GroupMode.colorMixer then
      let cs := group.colorState
      let rgb := hslToRgb cs.h cs.s cs.l
      let fstPass := group.members.foldl (colorMixerStep rgb masterValue) (s, [])
      let s2 := fstPass.2.foldl sendUniverse fstPass.1
      group.members.foldl colorMixerNotify s2
    else
      let fstPass := group.members.foldl (groupContribStep group groupId masterValue) (s, [])
      let sndPass := fstPass.2.foldl groupHtpStep (fstPass.1, [])
      sndPass.2.foldl (groupSendNotify fstPass.2) sndPass.1

/-- DMXInterface._get_groups_containing_member (1913-1923): the enabled
groups having a member at (u, channel), in groups-dict order. -/
def getGroupsContainingMember (s : DMXState) (u channel : ℕ) : List Group :=
  s.groups.filter fun g =>
    g.enabled && g.members.any fun m => decide (m.universeId = u ∧ m.channel = channel)

/-- DMXInterface._get_member_base_value (1925-1930): base_value of the
member at (u, channel), default 255. -/
def getMemberBaseValue (g : Group) (u channel : ℕ) : ℕ :=
  match g.members.find? (fun m => decide (m.universeId = u ∧ m.channel = channel)) with
  | some m => m.baseValue
  | none => 255

/-- DMXInterface.get_input_controlled_channels (670-732): the 1-indexed
channels of universe u currently controlled by the input stack, as an
ordered list whose membership matches the source's set.  Covers the
direct (non-mapped) passthrough range, mapped channel destinations from
any input universe, and unmapped 1:1 passthrough slots. -/
def getInputControlledChannels (s : DMXState) (u : ℕ) : List ℕ :=
  let direct :=
    if u ∈ s.inputs ∧ ¬ s.mappingEnabled then
      let config := alGetD s.passthroughConfig u {}
      if config.passthroughMode = PTMode.fadersOutput ∨
         config.passthroughMode = PTMode.outputOnly then
        List.range' config.channelStart (config.channelEnd + 1 - config.channelStart)
      else []
    else []
  let mapped :=
    if s.mappingEnabled then
      s.inputs.foldl
        (fun acc srcU =>
          let config := alGetD s.passthroughConfig srcU {}
          if config.passthroughMode = PTMode.fadersOutput ∨
             config.passthroughMode = PTMode.outputOnly then
            let fromMappings := s.channelMap.foldl
              (fun acc2 entry =>
                if entry.1.1 = srcU then
                  acc2 ++ entry.2.filterMap (fun d =>
                    if d.targetType = TargetType.channel ∧ d.universe? = some u then
                      d.channel?
                    else none)
                else acc2) []
            let unmapped :=
              if s.unmappedBehavior = "passthrough" ∧ srcU = u then
                let mappedDests := s.channelMap.foldl
                  (fun acc2 entry =>
                    acc2 ++ entry.2.filterMap (fun d =>
                      if d.targetType = TargetType.channel ∧ d.universe? = some u then
                        d.channel?
                      else none)) []
                let mappedSources := s.channelMap.foldl
                  (fun acc2 entry =>
                    if entry.1.1 = srcU then acc2 ++ [entry.1.2] else acc2) []
                (List.range' config.channelStart
                  (config.channelEnd + 1 - config.channelStart)).filter
                  fun ch => ch ∉ mappedDests ∧ ch ∉ mappedSources
              else []
            acc ++ fromMappings ++ unmapped
          else acc) []
    else []
  direct ++ mapped

/-! ## Facade write entry points (dmx_interface.py, lines 966-1258) -/

/-- True for the source tags the façade treats as user or local fader
writes (source == "local" or source.startswith("user_")). -/
def isUserSource (source : String) : Bool :=
  source = "local" || source.startsWith "user_"

/-- Store a group's master_value (the assignments of the form
self._groups[group_id]["master_value"] = value). -/
def storeMasterValue (groups : List Group) (gid v : ℕ) : List Group :=
  groups.map fun g => if g.id = gid then { g with masterValue := v } else g

/-- DMXInterface.set_channel (966-1012): under blackout only record the
value in the stored pre-blackout frame; reject parked channels with a
park_reject notification; otherwise track local values for user sources,
write the slot, send the universe, record the source tag, notify, and
trigger any groups whose physical master is this channel.  Channels are
1-512 as at the API layer. -/
def setChannel (s : DMXState) (u channel v : ℕ) (source : String) (fromGroup : Bool) :
    DMXState :=
  if s.blackoutActive then
    match alGet s.universes u with
    | none => s
    | some chans =>
      let pre := alGetD s.preBlackout u chans
      { s with preBlackout := alSet s.preBlackout u (pre.set (channel - 1) v) }
  else if isChannelParked s u channel then
    let parkedValue := alGetD (alGetD s.parkedChannels u []) channel 0
    { s with events := s.events ++ [DMXEvent.channelChange u channel parkedValue "park_reject"] }
  else
    match alGet s.universes u with
    | none => s
    | some chans =>
      let s1 :=
        if isUserSource source then
          let localArr := (alGetD s.localValues u (List.replicate 512 0)).set (channel - 1) v
          { s with localValues := alSet s.localValues u localArr }
        else s
      let written := DMXUniverse.set_channel chans channel v
      let s2 := { s1 with universes := alSet s1.universes u written }
      let s3 := sendUniverse s2 u
      let s4 := { s3 with
          channelSources := setSource s3.channelSources u channel source,
          events := s3.events ++ [DMXEvent.channelChange u channel v source] }
      if ¬ fromGroup then
        (alGetD s4.masterToGroups (u, channel) []).foldl
          (fun st gid =>
            let st1 := { st with groups := storeMasterValue st.groups gid v }
            applyGroup st1 gid v) s4
      else s4

/-- The (group, new_master, member_channel) tuples set_channels collects
per group id before applying them. -/
structure GroupUpdate where
  group : Group
  newMaster : ℕ
  memberChannel : ℕ
  deriving DecidableEq, Repr

/-- DMXInterface.set_channels (1014-1128): batch write.  Parked channels
are filtered out with park_reject notifications; for user sources a
channel belonging to exactly one enabled group is reverse-routed to that
group's master (follow: the value; proportional: min(255,
round(value*255/base))) unless the group's physical master is
input-controlled with bypass off (group_reject); a channel in two or more
enabled groups is rejected with group_reject; remaining channels are
written (or recorded pre-blackout), sent, notified and may trigger
physical-master groups; finally the collected group updates are applied
and physical master channels written with tag group_reverse.  The values
dict is its ordered (channel, value) pair list. -/
def setChannels (s : DMXState) (u : ℕ) (values : List (ℕ × ℕ)) (source : String) : DMXState :=
  match alGet s.universes u with
  | none => s
  | some chans =>
    let parkedInRequest := values.filter fun p => isChannelParked s u p.1
    let livePairs := values.filter fun p => ¬ isChannelParked s u p.1
    let s0 := parkedInRequest.foldl
      (fun st p =>
        { st with events := st.events ++
            [DMXEvent.channelChange u p.1 (alGetD (alGetD st.parkedChannels u []) p.1 0)
              "park_reject"] }) s
    if livePairs = [] then s0
    else
      let step := fun (acc : DMXState × List (ℕ × ℕ) × List (ℕ × GroupUpdate)) (p : ℕ × ℕ) =>
        let st := acc.1
        let regular := acc.2.1
        let groupsToUpdate := acc.2.2
        if isUserSource source then
          match getGroupsContainingMember st u p.1 with
          | [group] =>
            if (match group.physicalMaster with
                | some mk =>
                  !st.inputBypassActive && decide (mk.2 ∈ getInputControlledChannels st mk.1)
                | none => false) then
              ({ st with events := st.events ++
                  [DMXEvent.channelChange u p.1 (DMXUniverse.get_channel chans p.1)
                    "group_reject"] }, regular, groupsToUpdate)
            else
              let newMaster :=
                if group.mode = GroupMode.follow then p.2
                else
                  let baseValue := getMemberBaseValue group u p.1
                  if baseValue > 0 then
                    min 255 (pythonRound (((p.2 * 255 : ℕ) : ℚ) / (baseValue : ℚ))).toNat
                  else p.2
              let groupsToUpdate' :=
                match alGet groupsToUpdate group.id with
                | none => alSet groupsToUpdate group.id ⟨group, newMaster, p.1⟩
                | some old =>
                  if newMaster > old.newMaster then
                    alSet groupsToUpdate group.id ⟨group, newMaster, p.1⟩
                  else groupsToUpdate
              (st, regular, groupsToUpdate')
          | _ :: _ :: _ =>
            ({ st with events := st.events ++
                [DMXEvent.channelChange u p.1 (DMXUniverse.get_channel chans p.1)
                  "group_reject"] }, regular, groupsToUpdate)
          | [] => (st, regular ++ [p], groupsToUpdate)
        else (st, regular ++ [p], groupsToUpdate)
      let parts := livePairs.foldl step (s0, [], [])
      let sP := parts.1
      let regularChannels := parts.2.1
      let groupsToUpdate := parts.2.2
      let sR :=
        if regularChannels ≠ [] then
          let sL :=
            if isUserSource source then
              let localArr := regularChannels.foldl (fun arr p => arr.set (p.1 - 1) p.2)
                (alGetD sP.localValues u (List.replicate 512 0))
              { sP with localValues := alSet sP.localValues u localArr }
            else sP
          let sW := regularChannels.foldl
            (fun st p =>
              if st.blackoutActive then
                let preArr := (alGetD st.preBlackout u chans).set (p.1 - 1) p.2
                { st with preBlackout := alSet st.preBlackout u preArr }
              else
                { st with
                    universes := alSet st.universes u
                      (DMXUniverse.set_channel (alGetD st.universes u []) p.1 p.2),
                    channelSources := setSource st.channelSources u p.1 source }) sL
          if ¬ sW.blackoutActive then
            let sS := sendUniverse sW u
            let sN := regularChannels.foldl
              (fun st p =>
                { st with events := st.events ++ [DMXEvent.channelChange u p.1 p.2 source] }) sS
            regularChannels.foldl
              (fun st p =>
                (alGetD st.masterToGroups (u, p.1) []).foldl
                  (fun st2 gid =>
                    let st3 := { st2 with groups := storeMasterValue st2.groups gid p.2 }
                    let st4 := applyGroup st3 gid p.2
                    { st4 with events := st4.events ++
                        [DMXEvent.groupValueChanged gid p.2 none] }) st) sN
          else sW
        else sP
      groupsToUpdate.foldl
        (fun st pr =>
          let gid := pr.1
          let gu := pr.2
          let st1 := { st with groups := storeMasterValue st.groups gid gu.newMaster }
          let st2 := applyGroup st1 gid gu.newMaster
          let st3 := { st2 with events := st2.events ++
              [DMXEvent.groupValueChanged gid gu.newMaster none] }
          match gu.group.physicalMaster with
          | some mk =>
            (match alGet st3.universes mk.1 with
             | some mchans =>
               if ¬ st3.blackoutActive then
                 let masterWritten := DMXUniverse.set_channel mchans mk.2 gu.newMaster
                 let st4 := { st3 with universes := alSet st3.universes mk.1 masterWritten }
                 let st5 := sendUniverse st4 mk.1
                 { st5 with
                     channelSources := setSource st5.channelSources mk.1 mk.2 "group_reverse",
                     events := st5.events ++
                       [DMXEvent.channelChange mk.1 mk.2 gu.newMaster "group_reverse"] }
               else st3
             | none => st3)
          | none => st3) sR

/-- One universe of the blackout loop (lines 1199-1202): store the
frame, zero the universe, resend. -/
def blackoutStep (st : DMXState) (p : ℕ × List ℕ) : DMXState :=
  let st1 := { st with
      preBlackout := alSet st.preBlackout p.1 (alGetD st.universes p.1 []),
      universes := alSet st.universes p.1 DMXUniverse.blackoutFrame }
  sendUniverse st1 p.1

/-- DMXInterface.blackout (1194-1205): store every universe's frame,
zero it, resend, notify.  MIDI feedback is external I/O. -/
def blackoutOp (s : DMXState) : DMXState :=
  let s1 := { s with blackoutActive := true, preBlackout := [] }
  let s2 := s1.universes.foldl blackoutStep s1
  { s2 with events := s2.events ++ [DMXEvent.blackoutChanged true] }

/-- One stored frame of the release loop (lines 1211-1215): restore with
set_all and resend. -/
def releaseRestoreStep (st : DMXState) (p : ℕ × List ℕ) : DMXState :=
  match alGet st.universes p.1 with
  | none => st
  | some chans =>
    let restored := DMXUniverse.set_all chans (p.2.map Int.ofNat)
    let st1 := { st with universes := alSet st.universes p.1 restored }
    sendUniverse st1 p.1

/-- DMXInterface.release_blackout (1207-1219): clear the flag, restore
every stored pre-blackout frame with set_all, resend, notify. -/
def releaseBlackout (s : DMXState) : DMXState :=
  let s1 := { s with blackoutActive := false }
  let s2 := s1.preBlackout.foldl releaseRestoreStep s1
  let s3 := { s2 with preBlackout := [] }
  { s3 with events := s3.events ++ [DMXEvent.blackoutChanged false] }

/-! ## Input passthrough (dmx_interface.py, lines 360-535) -/

/-- The LTP merge core of DMXInterface._apply_passthrough (lines
380-393): starting from the universe's current frame, apply input[i] for
each 0-indexed i in [channel_start - 1, channel_end) exactly when
input[i] == 0 or |input[i] - last_applied[i]| exceeds the jitter
threshold, write the result back through set_all, and replace the whole
last-applied record with the incoming frame. -/
def applyPassthroughLtpFrame (channels last input : List ℕ)
    (channelStart channelEnd t : ℕ) : List ℕ × List ℕ :=
  let current := (List.range' (channelStart - 1) (channelEnd - (channelStart - 1))).foldl
    (fun cur i =>
      if input.getD i 0 = 0 ∨ ((input.getD i 0 : ℤ) - (last.getD i 0 : ℤ)).natAbs > t then
        cur.set i (input.getD i 0)
      else cur) channels
  (DMXUniverse.set_all channels (current.map Int.ofNat), input)

/-- A recorded grandmaster setter call of the mapped-passthrough loop:
(some u, v) for set_universe_grandmaster(u, v), (none, v) for
set_global_grandmaster(v). -/
abbrev GMCall := Option ℕ × ℕ

/-- The dst_values / dst_has_value pair of _apply_mapped_passthrough,
fused: slot i of a destination universe holds some v when i is in
dst_has_value with value v, and none when the slot has no value to
apply. -/
abbrev DstValues := List (ℕ × List (Option ℕ))

/-- Write one destination slot (dst_values[dst][idx] = value;
dst_has_value[dst].add(idx)), creating the 512-slot array on first use
of a destination universe. -/
def dstSet (st : DstValues) (u idx v : ℕ) : DstValues :=
  match alGet st u with
  | some arr => alSet st u (arr.set idx (some v))
  | none => st ++ [(u, (List.replicate 512 (none : Option ℕ)).set idx (some v))]

/-- Read one destination slot: the value scheduled for slot idx of
destination universe u, none when no value is scheduled. -/
def dstLookup (st : DstValues) (u idx : ℕ) : Option ℕ :=
  match alGet st u with
  | some arr => arr.getD idx none
  | none => none

/-- Lines 432-444 of _apply_mapped_passthrough: the 0-indexed slots of
destination universe dstU that are channel-mapping destinations of some
source channel of srcU (mapped_destinations[dstU]). -/
def mappedDestinationIdx (cmap : List ((ℕ × ℕ) × List MapDest)) (srcU dstU : ℕ) : List ℕ :=
  (List.range' 1 512).foldl
    (fun acc srcCh =>
      acc ++ (alGetD cmap (srcU, srcCh) []).filterMap (fun d =>
        if d.targetType = TargetType.channel ∧ d.universe? = some dstU then
          d.channel?.map (· - 1)
        else none)) []

/-- The routing result of one mapped-passthrough pass. -/
structure MappedPTResult where
  dstValues : DstValues
  gmCalls : List GMCall

/-- Routing of one input value to one mapping destination (lines
454-474): channel targets accumulate into dst_values, grandmaster
targets are recorded as setter calls in order. -/
def mappedPTDestStep (value : ℕ) (acc : MappedPTResult) (d : MapDest) : MappedPTResult :=
  match d.targetType with
  | TargetType.universeMaster =>
    match d.targetUniverseId? with
    | some tU => { acc with gmCalls := acc.gmCalls ++ [((some tU, value) : GMCall)] }
    | none => acc
  | TargetType.globalMaster =>
    { acc with gmCalls := acc.gmCalls ++ [((none, value) : GMCall)] }
  | TargetType.channel =>
    match d.universe?, d.channel? with
    | some dstU, some dstCh =>
      { acc with dstValues := dstSet acc.dstValues dstU (dstCh - 1) value }
    | _, _ => acc

/-- Processing of one source channel (lines 446-487): a mapped channel
routes its input value to every destination; an unmapped channel copies
1:1 into the source universe only when unmapped_behavior is passthrough,
the channel lies within the input range, and the same slot is not
already a mapped destination of the source universe. -/
def mappedPTStep (cmap : List ((ℕ × ℕ) × List MapDest)) (unmappedBehavior : String)
    (channelStart channelEnd srcU : ℕ) (input : List ℕ)
    (acc : MappedPTResult) (srcCh : ℕ) : MappedPTResult :=
  let value := input.getD (srcCh - 1) 0
  let dests := alGetD cmap (srcU, srcCh) []
  if dests ≠ [] then
    dests.foldl (mappedPTDestStep value) acc
  else if unmappedBehavior = "passthrough" then
    if srcCh < channelStart ∨ srcCh > channelEnd then acc
    else if (srcCh - 1) ∈ mappedDestinationIdx cmap srcU srcU then acc
    else { acc with dstValues := dstSet acc.dstValues srcU (srcCh - 1) value }
  else acc

/-- The destination-building loop of DMXInterface._apply_mapped_passthrough
(lines 446-487), over all 512 source channels. -/
def applyMappedPassthroughDst (cmap : List ((ℕ × ℕ) × List MapDest))
    (unmappedBehavior : String) (channelStart channelEnd srcU : ℕ)
    (input : List ℕ) : MappedPTResult :=
  (List.range' 1 512).foldl
    (mappedPTStep cmap unmappedBehavior channelStart channelEnd srcU input) ⟨[], []⟩

/-- Every destination-universe array of dst_values has 512 slots. -/
def dstWF (st : DstValues) : Prop := ∀ p ∈ st, (p.2 : List (Option ℕ)).length = 512

/-- Read back slot idx (0-indexed) of universe u from a facade state. -/
def slotRead (st : DMXState) (u idx : ℕ) : ℕ :=
  (alGetD st.universes u []).getD idx 0

/-- A member writes slot (u, c) in the color_mixer loop: it is a channel
target with a color role at that universe and channel. -/
def memberWritesSlot (u c : ℕ) (m : Member) : Prop :=
  m.targetType = TargetType.channel ∧ m.colorRole.isSome ∧ m.universeId = u ∧ m.channel = c

instance (u c : ℕ) (m : Member) : Decidable (memberWritesSlot u c m) := by
  unfold memberWritesSlot
  infer_instance

/-! ## Concrete fixtures used by closed theorems -/

/-- A single-member color_mixer group: member (1,1) with role red, color
state h=0, s=0, l=3 (a very dark gray, whose RGB conversion is (7,7,7)). -/
def c7Member : Member :=
  { targetType := TargetType.channel, universeId := 1, channel := 1,
    baseValue := 255, colorRole := some "red" }

/-- The group holding c7Member. -/
def c7Group : Group :=
  { id := 7, mode := GroupMode.colorMixer, enabled := true, masterValue := 255,
    members := [c7Member], colorState := { h := 0, s := 0, l := 3 } }

/-- A facade state with one all-zero universe and the color_mixer group. -/
def c7State : DMXState :=
  { universes := [(1, List.replicate 512 0)], groups := [c7Group] }

/-- A state with one universe whose channel 5 reads 200 and is parked at 50. -/
def c1State : DMXState :=
  { universes := [(1, (List.replicate 512 0).set 4 200)],
    parkedChannels := [(1, [(5, 50)])] }

/-- A state with one universe, nothing parked and no highlight. -/
def c1Plain : DMXState :=
  { universes := [(2, List.replicate 512 7)] }

/-- The new master value set_channels computes for a reverse-routed
member write (lines 1047-1056): the value itself for a follow group,
min(255, round(value*255/base)) for a proportional group with positive
base, the value when the base is 0. -/
def memberNewMaster (g : Group) (u c v : ℕ) : ℕ :=
  if g.mode = GroupMode.follow then v
  else
    let baseValue := getMemberBaseValue g u c
    if baseValue > 0 then min 255 (pythonRound (((v * 255 : ℕ) : ℚ) / (baseValue : ℚ))).toNat
    else v

/-- A member fader at channel 10 of universe 1. -/
def c2Member : Member :=
  { targetType := TargetType.channel, universeId := 1, channel := 10 }

/-- A follow group over that single member, master at 5, no physical
master. -/
def c2Group : Group :=
  { id := 3, mode := GroupMode.follow, enabled := true, masterValue := 5,
    members := [c2Member] }

/-- A state with one zeroed universe and that one enabled group. -/
def c2State : DMXState :=
  { universes := [(1, List.replicate 512 0)], groups := [c2Group] }

/-- A channel map with the single entry (1,10) to channel (1,3). -/
def c8Cmap : List ((ℕ × ℕ) × List MapDest) :=
  [((1, 10),
    [{ targetType := TargetType.channel, universe? := some 1, channel? := some 3 }])]

/-! ## Theorems -/

/-- Association list lookup distributes over cons. -/
theorem alGet_cons {α β : Type} [DecidableEq α] (p : α × β) (tl : List (α × β)) (k : α) :
    alGet (p :: tl) k = if p.1 = k then some p.2 else alGet tl k := by
  simp only [alGet, List.find?]
  rcases Decidable.em (p.1 = k) with h | h
  · simp [h]
  · simp [h]

/-- Updating a key then reading it gives the new value. -/
theorem alGet_alSet_self {α β : Type} [DecidableEq α] (l : List (α × β)) (k : α) (v : β) :
    alGet (alSet l k v) k = some v := by
  induction l with
  | nil => simp [alSet, alGet_cons]
  | cons p tl ih =>
    simp only [alSet]
    split_ifs with h
    · simp [alGet_cons]
    · rw [alGet_cons, if_neg h, ih]

/-- Updating one key leaves every other key's binding unchanged. -/
theorem alGet_alSet_ne {α β : Type} [DecidableEq α] (l : List (α × β)) (k k' : α) (v : β)
    (h : k' ≠ k) : alGet (alSet l k v) k' = alGet l k' := by
  induction l with
  | nil => simp [alSet, alGet_cons, alGet, (Ne.symm h)]
  | cons p tl ih =>
    simp only [alSet]
    split_ifs with hp
    · rw [alGet_cons, alGet_cons, if_neg (show ¬(k, v).1 = k' from Ne.symm h),
        if_neg (show ¬p.1 = k' from hp ▸ Ne.symm h)]
    · rw [alGet_cons, alGet_cons, ih]

/-- getD after a set, in full generality. -/
theorem getD_set {α : Type} (l : List α) (j i : ℕ) (v d : α) :
    (l.set j v).getD i d = if j = i ∧ j < l.length then v else l.getD i d := by
  by_cases hj : j = i ∧ j < l.length
  · obtain ⟨rfl, hl⟩ := hj
    rw [if_pos ⟨rfl, hl⟩, List.getD_eq_getElem _ _ (by simpa using hl),
      List.getElem_set_self]
  · rw [if_neg hj]
    by_cases hij : j = i
    · subst hij
      have hl : l.length ≤ j := by
        rcases not_and_or.mp hj with h | h
        · exact absurd rfl h
        · omega
      rw [List.getD_eq_default _ _ (by simpa using hl), List.getD_eq_default _ _ hl]
    · by_cases hi : i < l.length
      · rw [List.getD_eq_getElem _ _ (by simpa using hi), List.getD_eq_getElem _ _ hi,
          List.getElem_set_ne hij]
      · rw [List.getD_eq_default _ _ (by simpa using (not_lt.mp hi)),
          List.getD_eq_default _ _ (not_lt.mp hi)]

/-- getD of a list of octets is bounded when every entry is. -/
theorem getD_le_of_all (l : List ℕ) (h : ∀ x ∈ l, x ≤ 255) (i : ℕ) : l.getD i 0 ≤ 255 := by
  by_cases hi : i < l.length
  · rw [List.getD_eq_getElem _ _ hi]
    exact h _ (List.getElem_mem hi)
  · rw [List.getD_eq_default _ _ (not_lt.mp hi)]
    omega

/-- DMXUniverse.set_channel preserves the frame length. -/
theorem set_channel_length (channels : List ℕ) (channel value : ℤ) :
    (DMXUniverse.set_channel channels channel value).length = channels.length := by
  unfold DMXUniverse.set_channel
  split_ifs
  · exact List.length_set ..
  · rfl

/-- The color_mixer write step never touches the parked map. -/
theorem colorMixerStep_parked (rgb : ℤ × ℤ × ℤ) (m : ℕ) (acc : DMXState × List ℕ)
    (mem : Member) :
    (colorMixerStep rgb m acc mem).1.parkedChannels = acc.1.parkedChannels := by
  simp only [colorMixerStep]
  repeat' split
  all_goals rfl

/-- The color_mixer write step preserves which universes exist and their
frame lengths. -/
theorem colorMixerStep_universes_len (rgb : ℤ × ℤ × ℤ) (m : ℕ) (acc : DMXState × List ℕ)
    (mem : Member) (u' : ℕ) :
    ((alGet (colorMixerStep rgb m acc mem).1.universes u').map List.length) =
      (alGet acc.1.universes u').map List.length := by
  simp only [colorMixerStep]
  split
  · rfl
  · split
    · rfl
    · split
      · rfl
      · split
        · rfl
        · rename_i role hn hp chans heq
          by_cases hu' : u' = mem.universeId
          · subst hu'
            rw [alGet_alSet_self, heq]
            simp [set_channel_length]
          · rw [alGet_alSet_ne _ _ _ _ hu']

/-- Fold version of colorMixerStep_parked. -/
theorem colorMixerFold_parked (rgb : ℤ × ℤ × ℤ) (m : ℕ) (l : List Member)
    (acc : DMXState × List ℕ) :
    ((l.foldl (colorMixerStep rgb m) acc).1.parkedChannels) = acc.1.parkedChannels := by
  induction l generalizing acc with
  | nil => rfl
  | cons hd tl ih => rw [List.foldl_cons, ih, colorMixerStep_parked]

/-- Fold version of colorMixerStep_universes_len. -/
theorem colorMixerFold_universes_len (rgb : ℤ × ℤ × ℤ) (m : ℕ) (l : List Member)
    (acc : DMXState × List ℕ) (u' : ℕ) :
    ((alGet (l.foldl (colorMixerStep rgb m) acc).1.universes u').map List.length) =
      (alGet acc.1.universes u').map List.length := by
  induction l generalizing acc with
  | nil => rfl
  | cons hd tl ih => rw [List.foldl_cons, ih, colorMixerStep_universes_len]

/-- A member that does not target slot (u, c) leaves that slot's value
unchanged in the color_mixer write step. -/
theorem colorMixerStep_slot_not_writes (rgb : ℤ × ℤ × ℤ) (m : ℕ) (acc : DMXState × List ℕ)
    (mem : Member) (u c : ℕ) (hc : 1 ≤ c) (hnw : ¬ memberWritesSlot u c mem) :
    slotRead (colorMixerStep rgb m acc mem).1 u (c - 1) = slotRead acc.1 u (c - 1) := by
  obtain ⟨tt, uid, ch, base, crole, tuid⟩ := mem
  cases tt
  case universeMaster => rfl
  case globalMaster => rfl
  case channel =>
    cases crole with
    | none => rfl
    | some role =>
      have hne : ¬ (uid = u ∧ ch = c) := by
        intro hud
        exact hnw ⟨rfl, rfl, hud.1, hud.2⟩
      simp only [colorMixerStep, ne_eq, not_true_eq_false, if_false]
      by_cases hp : isChannelParked acc.1 uid ch
      · rw [if_pos hp]
      · rw [if_neg hp]
        cases halG : alGet acc.1.universes uid with
        | none => simp only [halG]
        | some chans =>
          simp only [halG, slotRead, alGetD]
          by_cases huu : u = uid
          · subst huu
            rw [alGet_alSet_self, halG]
            have hcc : ch ≠ c := fun h => hne ⟨rfl, h⟩
            simp only [DMXUniverse.set_channel, Option.getD_some]
            split_ifs with hg
            · rw [getD_set, if_neg]
              rintro ⟨h1, _⟩
              omega
            · rfl
          · rw [alGet_alSet_ne _ _ _ _ huu]

/-- A member that does target slot (u, c), with the channel unparked and
the universe present, writes the truncated scaled role value there. -/
theorem colorMixerStep_slot_writes (rgb : ℤ × ℤ × ℤ) (m : ℕ) (acc : DMXState × List ℕ)
    (mem : Member) (u c : ℕ) (role : String) (chans : List ℕ)
    (htt : mem.targetType = TargetType.channel) (hrole : mem.colorRole = some role)
    (huc : mem.universeId = u) (hcc : mem.channel = c)
    (hnp : isChannelParked acc.1 u c = false)
    (hu : alGet acc.1.universes u = some chans) (hlen : chans.length = 512)
    (hc1 : 1 ≤ c) (hc512 : c ≤ 512)
    (hout0 : 0 ≤ pythonTrunc ((colorRoleToValue role rgb.1 rgb.2.1 rgb.2.2 : ℚ) * (m : ℚ) / 255))
    (hout255 :
      pythonTrunc ((colorRoleToValue role rgb.1 rgb.2.1 rgb.2.2 : ℚ) * (m : ℚ) / 255) ≤ 255) :
    slotRead (colorMixerStep rgb m acc mem).1 u (c - 1) =
      (pythonTrunc ((colorRoleToValue role rgb.1 rgb.2.1 rgb.2.2 : ℚ) * (m : ℚ) / 255)).toNat := by
  simp only [colorMixerStep, htt, hrole, huc, hcc, hnp, hu, ne_eq, not_true_eq_false,
    if_false, Bool.false_eq_true]
  simp only [slotRead, alGetD]
  rw [alGet_alSet_self]
  simp only [DMXUniverse.set_channel, Option.getD_some]
  rw [if_pos (by refine ⟨by omega, by omega, hout0, hout255⟩)]
  rw [getD_set, if_pos (by constructor <;> omega)]

/-- Fold of non-writing members preserves the slot value. -/
theorem colorMixerFold_slot_not_writes (rgb : ℤ × ℤ × ℤ) (m : ℕ) (l : List Member)
    (acc : DMXState × List ℕ) (u c : ℕ) (hc : 1 ≤ c)
    (hl : ∀ mem ∈ l, ¬ memberWritesSlot u c mem) :
    slotRead (l.foldl (colorMixerStep rgb m) acc).1 u (c - 1) = slotRead acc.1 u (c - 1) := by
  induction l generalizing acc with
  | nil => rfl
  | cons hd tl ih =>
    rw [List.foldl_cons, ih _ (fun mem hm => hl mem (List.mem_cons_of_mem _ hm)),
      colorMixerStep_slot_not_writes _ _ _ _ _ _ hc (hl hd (List.mem_cons_self ..))]

/-- slotRead only looks at the universes field. -/
theorem slotRead_congr (st₁ st₂ : DMXState) (u i : ℕ) (h : st₁.universes = st₂.universes) :
    slotRead st₁ u i = slotRead st₂ u i := by
  simp [slotRead, alGetD, h]

/-- sendUniverse only appends an event. -/
theorem sendUniverse_universes (s : DMXState) (u : ℕ) :
    (sendUniverse s u).universes = s.universes := by
  unfold sendUniverse
  split <;> rfl

/-- Fold version of sendUniverse_universes. -/
theorem sendFold_universes (l : List ℕ) (s : DMXState) :
    (l.foldl sendUniverse s).universes = s.universes := by
  induction l generalizing s with
  | nil => rfl
  | cons hd tl ih => rw [List.foldl_cons, ih, sendUniverse_universes]

/-- The color_mixer notification loop only appends events. -/
theorem colorMixerNotify_universes (st : DMXState) (mem : Member) :
    (colorMixerNotify st mem).universes = st.universes := by
  simp only [colorMixerNotify]
  repeat' split
  all_goals rfl

/-- Fold version of colorMixerNotify_universes. -/
theorem colorMixerNotifyFold_universes (l : List Member) (st : DMXState) :
    (l.foldl colorMixerNotify st).universes = st.universes := by
  induction l generalizing st with
  | nil => rfl
  | cons hd tl ih => rw [List.foldl_cons, ih, colorMixerNotify_universes]

/-- Applying a color_mixer group writes, into the slot of a member with a
color role (here the slot no later member also targets), the int-truncated
product colorRoleToValue(role, hslToRgb(color state)) * master / 255. -/
theorem colorMixer_apply_slot
    (s : DMXState) (g : Group) (mem : Member) (l₁ l₂ : List Member)
    (u c m : ℕ) (role : String) (chans : List ℕ)
    (hfind : s.groups.find? (fun g' => decide (g'.id = g.id)) = some g)
    (hen : g.enabled = true) (hmode : g.mode = GroupMode.colorMixer)
    (hmem : g.members = l₁ ++ mem :: l₂)
    (htt : mem.targetType = TargetType.channel) (hrole : mem.colorRole = some role)
    (huc : mem.universeId = u) (hcc : mem.channel = c)
    (hl₂ : ∀ m' ∈ l₂, ¬ memberWritesSlot u c m')
    (hnp : isChannelParked s u c = false)
    (hc1 : 1 ≤ c) (hc512 : c ≤ 512)
    (hu : alGet s.universes u = some chans) (hlen : chans.length = 512)
    (hout0 : 0 ≤ pythonTrunc
      ((colorRoleToValue role (hslToRgb g.colorState.h g.colorState.s g.colorState.l).1
          (hslToRgb g.colorState.h g.colorState.s g.colorState.l).2.1
          (hslToRgb g.colorState.h g.colorState.s g.colorState.l).2.2 : ℚ) * (m : ℚ) / 255))
    (hout255 : pythonTrunc
      ((colorRoleToValue role (hslToRgb g.colorState.h g.colorState.s g.colorState.l).1
          (hslToRgb g.colorState.h g.colorState.s g.colorState.l).2.1
          (hslToRgb g.colorState.h g.colorState.s g.colorState.l).2.2 : ℚ) * (m : ℚ) / 255)
        ≤ 255) :
    slotRead (applyGroup s g.id m) u (c - 1) =
      (pythonTrunc
        ((colorRoleToValue role (hslToRgb g.colorState.h g.colorState.s g.colorState.l).1
            (hslToRgb g.colorState.h g.colorState.s g.colorState.l).2.1
            (hslToRgb g.colorState.h g.colorState.s g.colorState.l).2.2 : ℚ) *
          (m : ℚ) / 255)).toNat := by
  simp only [applyGroup, hfind, hen, hmode, not_true_eq_false, if_false, if_pos]
  rw [slotRead_congr _ ((g.members.foldl
      (colorMixerStep (hslToRgb g.colorState.h g.colorState.s g.colorState.l) m) (s, [])).1)
    u (c - 1) (by rw [colorMixerNotifyFold_universes, sendFold_universes])]
  rw [hmem, List.foldl_append, List.foldl_cons]
  set acc1 := List.foldl
    (colorMixerStep (hslToRgb g.colorState.h g.colorState.s g.colorState.l) m) (s, []) l₁
    with hacc1
  have hpk : acc1.1.parkedChannels = s.parkedChannels := colorMixerFold_parked ..
  have hnp1 : isChannelParked acc1.1 u c = false := by
    simp only [isChannelParked, alGetD, hpk]
    simpa only [isChannelParked, alGetD] using hnp
  have hlen1 : (alGet acc1.1.universes u).map List.length = some 512 := by
    rw [colorMixerFold_universes_len, hu]
    simp [hlen]
  cases halG : alGet acc1.1.universes u with
  | none => rw [halG] at hlen1 ; exact absurd hlen1 (by simp)
  | some chans₁ =>
    have hlen₁ : chans₁.length = 512 := by
      rw [halG] at hlen1
      simpa using hlen1
    rw [colorMixerFold_slot_not_writes _ _ _ _ _ _ hc1 hl₂]
    exact colorMixerStep_slot_writes _ m acc1 mem u c role chans₁ htt hrole huc hcc
      hnp1 halG hlen₁ hc1 hc512 hout0 hout255

/-- Python's banker's rounding agrees with Mathlib's round (half up) at
every rational that is not exactly halfway between two integers. -/
theorem pythonRound_eq_round (q : ℚ) (hq : q - (⌊q⌋ : ℚ) ≠ 1 / 2) :
    pythonRound q = round q := by
  have hf0 : (⌊q⌋ : ℚ) ≤ q := Int.floor_le q
  have hf1 : q < (⌊q⌋ : ℚ) + 1 := Int.lt_floor_add_one q
  rw [round_eq]
  simp only [pythonRound]
  split_ifs with h1 h2
  · symm
    rw [Int.floor_eq_iff]
    constructor
    · push_cast
      linarith
    · push_cast
      linarith
  · symm
    rw [Int.floor_eq_iff]
    constructor
    · push_cast
      linarith
    · push_cast
      linarith
  · exact absurd (le_antisymm (not_lt.mp h2) (not_lt.mp h1)) hq
  · exact absurd (le_antisymm (not_lt.mp h2) (not_lt.mp h1)) hq

/-- A rational of the form a / 65025 with a natural numerator is never
exactly halfway between two integers (65025 is odd), so Python's
banker's rounding of the grandmaster scale product agrees with round. -/
theorem grandmaster_quotient_no_half (a : ℕ) :
    ((a : ℚ) / 65025) - (⌊(a : ℚ) / 65025⌋ : ℚ) ≠ 1 / 2 := by
  intro h
  set k := ⌊(a : ℚ) / 65025⌋ with hk
  have h2 : (2 * a : ℚ) = 65025 * (2 * k + 1) := by
    field_simp at h
    linarith
  have h3 : (2 * a : ℤ) = 65025 * (2 * k + 1) := by exact_mod_cast h2
  omega

/-- Helper: toNat commutes with the final min against 255. -/
theorem toNat_min_255 (n : ℤ) (hn : 0 ≤ n) : (min 255 n).toNat = min 255 n.toNat := by
  omega

/-- getD through a map, for an in-range index. -/
theorem getD_map_of_lt {α β : Type} (f : α → β) (l : List α) (i : ℕ) (d : β) (d' : α)
    (h : i < l.length) : (l.map f).getD i d = f (l.getD i d') := by
  rw [List.getD_eq_getElem _ _ (by simpa using h), List.getElem_map,
    List.getD_eq_getElem _ _ h]

/-- The fold of parked overrides preserves the frame length. -/
theorem parkFold_length (l : List (ℕ × ℕ)) (res : List ℕ) :
    (l.foldl (fun res p => res.set (p.1 - 1) p.2) res).length = res.length := by
  induction l generalizing res with
  | nil => rfl
  | cons hd tl ih => simp [ih, List.length_set]

/-- applyChannelOverrides preserves the frame length. -/
theorem applyChannelOverrides_length (s : DMXState) (chans : List ℕ) (u : ℕ) :
    (applyChannelOverrides s chans u).length = chans.length := by
  simp only [applyChannelOverrides]
  rw [parkFold_length]
  split_ifs with h
  · simp
  · rfl

/-- Claim C5: for every emitted frame and slot, the wire value equals
min(255, round(frame[i] * universe_gm * global_gm / 65025)) where frame
is the composed frame after park/highlight overrides; the code skips the
multiplication when both grandmasters are 255, which agrees with the
formula because the slot is then at most 255. -/
theorem wire_grandmaster_scaling_formula (s : DMXState) (u i : ℕ) (chans : List ℕ)
    (hu : alGet s.universes u = some chans)
    (hi : i < chans.length)
    (hov : ∀ x ∈ applyChannelOverrides s chans u, x ≤ 255)
    (hggm : s.globalGrandmaster ≤ 255) :
    ∃ w, wireFrame s u = some w ∧
      w.getD i 0 =
        (min 255 (round (((applyChannelOverrides s chans u).getD i 0 : ℚ) *
          ((alGetD s.universeGrandmasters u 255 : ℕ) : ℚ) *
          (s.globalGrandmaster : ℚ) / 65025))).toNat := by
  refine ⟨applyGrandmasterScaling s (applyChannelOverrides s chans u) u, ?_, ?_⟩
  · simp [wireFrame, hu]
  · have hlen : (applyChannelOverrides s chans u).length = chans.length :=
      applyChannelOverrides_length s chans u
    have hiov : i < (applyChannelOverrides s chans u).length := by omega
    have hle : (applyChannelOverrides s chans u).getD i 0 ≤ 255 := by
      rw [List.getD_eq_getElem _ _ hiov]
      exact hov _ (List.getElem_mem hiov)
    set ov := applyChannelOverrides s chans u with hovdef
    set ch := ov.getD i 0 with hch
    simp only [applyGrandmasterScaling]
    split_ifs with h
    · obtain ⟨h1, h2⟩ := h
      rw [h1, h2]
      have harg : ((ch : ℚ) * ((255 : ℕ) : ℚ) * ((255 : ℕ) : ℚ) / 65025) = ((ch : ℕ) : ℚ) := by
        push_cast
        ring
      rw [harg, round_natCast]
      omega
    · rw [getD_map_of_lt _ _ _ _ 0 hiov, ← hch]
      have harg : (ch : ℚ) * ((((alGetD s.universeGrandmasters u 255 : ℕ) : ℚ) / 255) *
          ((s.globalGrandmaster : ℚ) / 255)) =
          ((ch * alGetD s.universeGrandmasters u 255 * s.globalGrandmaster : ℕ) : ℚ) / 65025 := by
        push_cast
        ring
      have harg2 : (ch : ℚ) * ((alGetD s.universeGrandmasters u 255 : ℕ) : ℚ) *
          (s.globalGrandmaster : ℚ) / 65025 =
          ((ch * alGetD s.universeGrandmasters u 255 * s.globalGrandmaster : ℕ) : ℚ) / 65025 := by
        push_cast
        ring
      rw [harg, harg2, pythonRound_eq_round _ (grandmaster_quotient_no_half _)]

/-- Claim C7 counterexample: for the color_mixer group c7Group (role
red, HSL (0,0,3), so RGB (7,7,7)) applied with master 128, the code
writes int(7 * 128 / 255) = 3 to the member slot, while the claimed
round(role_value * m / 255) equals 4. -/
theorem color_mixer_round_claim_false :
    slotRead (applyGroup c7State 7 128) 1 0 = 3 ∧
    round ((7 : ℚ) * (128 : ℚ) / 255) = 4 ∧
    hslToRgb 0 0 3 = (7, 7, 7) ∧
    colorRoleToValue "red" 7 7 7 = 7 := by
  have hR : hslToRgb 0 0 3 = ((7 : ℤ), (7 : ℤ), (7 : ℤ)) := by
    simp only [hslToRgb, pythonTrunc]
    norm_num
  refine ⟨?_, ?_, hR, by decide⟩
  · have h := colorMixer_apply_slot c7State c7Group c7Member [] [] 1 1 128 "red"
      (List.replicate 512 0) rfl rfl rfl rfl rfl rfl rfl rfl (by simp) rfl
      (by decide) (by decide) rfl (by decide)
      (by rw [show c7Group.colorState = ColorState.mk 0 0 3 from rfl]
          simp only [hR]
          norm_num [pythonTrunc, colorRoleToValue])
      (by rw [show c7Group.colorState = ColorState.mk 0 0 3 from rfl]
          simp only [hR]
          norm_num [pythonTrunc, colorRoleToValue])
    rw [show c7Group.id = 7 from rfl] at h
    rw [h]
    rw [show c7Group.colorState = ColorState.mk 0 0 3 from rfl]
    simp only [hR]
    norm_num [pythonTrunc, colorRoleToValue]
    decide
  · rw [round_eq]
    norm_num

/-- Claim C7 (amended): applying a color_mixer group with master m sets
the slot of a member with a color role (when no later member targets the
same slot, the channel is unparked and the universe exists) to
int(role_value * m / 255) with Python int() truncation — not round() —
where role_value derives from the HSL to RGB conversion of the group's
color state per the role table of _color_role_to_value. -/
theorem color_mixer_member_slot_value
    (s : DMXState) (g : Group) (mem : Member) (l₁ l₂ : List Member)
    (u c m : ℕ) (role : String) (chans : List ℕ)
    (hfind : s.groups.find? (fun g' => decide (g'.id = g.id)) = some g)
    (hen : g.enabled = true) (hmode : g.mode = GroupMode.colorMixer)
    (hmem : g.members = l₁ ++ mem :: l₂)
    (htt : mem.targetType = TargetType.channel) (hrole : mem.colorRole = some role)
    (huc : mem.universeId = u) (hcc : mem.channel = c)
    (hl₂ : ∀ m' ∈ l₂, ¬ memberWritesSlot u c m')
    (hnp : isChannelParked s u c = false)
    (hc1 : 1 ≤ c) (hc512 : c ≤ 512)
    (hu : alGet s.universes u = some chans) (hlen : chans.length = 512)
    (hout0 : 0 ≤ pythonTrunc
      ((colorRoleToValue role (hslToRgb g.colorState.h g.colorState.s g.colorState.l).1
          (hslToRgb g.colorState.h g.colorState.s g.colorState.l).2.1
          (hslToRgb g.colorState.h g.colorState.s g.colorState.l).2.2 : ℚ) * (m : ℚ) / 255))
    (hout255 : pythonTrunc
      ((colorRoleToValue role (hslToRgb g.colorState.h g.colorState.s g.colorState.l).1
          (hslToRgb g.colorState.h g.colorState.s g.colorState.l).2.1
          (hslToRgb g.colorState.h g.colorState.s g.colorState.l).2.2 : ℚ) * (m : ℚ) / 255)
        ≤ 255) :
    slotRead (applyGroup s g.id m) u (c - 1) =
      (pythonTrunc
        ((colorRoleToValue role (hslToRgb g.colorState.h g.colorState.s g.colorState.l).1
            (hslToRgb g.colorState.h g.colorState.s g.colorState.l).2.1
            (hslToRgb g.colorState.h g.colorState.s g.colorState.l).2.2 : ℚ) *
          (m : ℚ) / 255)).toNat :=
  colorMixer_apply_slot s g mem l₁ l₂ u c m role chans hfind hen hmode hmem htt hrole
    huc hcc hl₂ hnp hc1 hc512 hu hlen hout0 hout255

/-- Witness for the amended C7 theorem at the c7State fixture: the
member slot reads back int(7 * 128 / 255) = 3. -/
theorem color_mixer_member_slot_value_witness :
    slotRead (applyGroup c7State 7 128) 1 0 = 3 := by
  have hR : hslToRgb 0 0 3 = ((7 : ℤ), (7 : ℤ), (7 : ℤ)) := by
    simp only [hslToRgb, pythonTrunc]
    norm_num
  have h := color_mixer_member_slot_value c7State c7Group c7Member [] [] 1 1 128 "red"
    (List.replicate 512 0) rfl rfl rfl rfl rfl rfl rfl rfl (by simp) rfl
    (by decide) (by decide) rfl (by decide)
    (by rw [show c7Group.colorState = ColorState.mk 0 0 3 from rfl]
        simp only [hR]
        norm_num [pythonTrunc, colorRoleToValue])
    (by rw [show c7Group.colorState = ColorState.mk 0 0 3 from rfl]
        simp only [hR]
        norm_num [pythonTrunc, colorRoleToValue])
  rw [show c7Group.id = 7 from rfl] at h
  rw [h]
  rw [show c7Group.colorState = ColorState.mk 0 0 3 from rfl]
  simp only [hR]
  norm_num [pythonTrunc, colorRoleToValue]
  decide

/-- A successful association-list lookup exhibits a member. -/
theorem alGet_mem {α β : Type} [DecidableEq α] (l : List (α × β)) (k : α) (v : β)
    (h : alGet l k = some v) : (k, v) ∈ l := by
  induction l with
  | nil => simp [alGet] at h
  | cons p tl ih =>
    rw [alGet_cons] at h
    split_ifs at h with hp
    · refine List.mem_cons.mpr (Or.inl ?_)
      have := Option.some.inj h
      calc (k, v) = (p.1, p.2) := by rw [hp, this]
        _ = p := rfl
    · exact List.mem_cons.mpr (Or.inr (ih h))

/-- Lookup through appending one binding at the end. -/
theorem alGet_append_single {α β : Type} [DecidableEq α] (l : List (α × β)) (k k' : α)
    (v : β) :
    alGet (l ++ [(k, v)]) k' =
      match alGet l k' with
      | some w => some w
      | none => if k' = k then some v else none := by
  induction l with
  | nil =>
    show alGet [(k, v)] k' = if k' = k then some v else none
    rw [alGet_cons]
    by_cases h : k' = k
    · rw [if_pos h, if_pos (show (k, v).1 = k' from h.symm)]
    · rw [if_neg h, if_neg (show ¬(k, v).1 = k' from fun hh => h hh.symm)]
      rfl
  | cons p tl ih =>
    rw [List.cons_append, alGet_cons, alGet_cons]
    by_cases hp : p.1 = k'
    · rw [if_pos hp, if_pos hp]
    · rw [if_neg hp, if_neg hp, ih]

/-- Membership after an association-list update. -/
theorem mem_alSet {α β : Type} [DecidableEq α] (l : List (α × β)) (k : α) (w : β)
    (p : α × β) (h : p ∈ alSet l k w) : p = (k, w) ∨ p ∈ l := by
  induction l with
  | nil =>
    simp only [alSet] at h
    rcases List.mem_singleton.mp h with h'
    exact Or.inl h'
  | cons q tl ih =>
    simp only [alSet] at h
    split_ifs at h with hq
    · rcases List.mem_cons.mp h with h' | h'
      · exact Or.inl h'
      · exact Or.inr (List.mem_cons_of_mem _ h')
    · rcases List.mem_cons.mp h with h' | h'
      · exact Or.inr (h' ▸ List.mem_cons_self ..)
      · rcases ih h' with h'' | h''
        · exact Or.inl h''
        · exact Or.inr (List.mem_cons_of_mem _ h'')

/-- dstSet keeps every destination array at 512 slots. -/
theorem dstWF_dstSet (st : DstValues) (u idx v : ℕ) (h : dstWF st) :
    dstWF (dstSet st u idx v) := by
  unfold dstSet
  cases halG : alGet st u with
  | some arr =>
    intro p hp
    rcases mem_alSet _ _ _ _ hp with h' | h'
    · subst h'
      simp only [List.length_set]
      exact h _ (alGet_mem _ _ _ halG)
    · exact h _ h'
  | none =>
    intro p hp
    rcases List.mem_append.mp hp with h' | h'
    · exact h _ h'
    · rcases List.mem_singleton.mp h' with h''
      subst h''
      simp

/-- Reading any slot after a dstSet write. -/
theorem dstLookup_dstSet (st : DstValues) (u idx v U I : ℕ) (hwf : dstWF st) :
    dstLookup (dstSet st u idx v) U I =
      if U = u ∧ I = idx ∧ idx < 512 then some v else dstLookup st U I := by
  have hrep : ∀ j, (List.replicate 512 (none : Option ℕ)).getD j none = none := by
    intro j
    by_cases hj : j < 512
    · rw [List.getD_eq_getElem _ _ (by simpa using hj), List.getElem_replicate]
    · rw [List.getD_eq_default _ _ (by simpa using not_lt.mp hj)]
  unfold dstSet
  cases halG : alGet st u with
  | some arr =>
    have harr : arr.length = 512 := hwf _ (alGet_mem _ _ _ halG)
    by_cases hU : U = u
    · rw [hU]
      simp only [dstLookup, alGet_alSet_self, halG]
      rw [getD_set, harr]
      split_ifs with h1 h2 h3
      · rfl
      · exact absurd ⟨by trivial, h1.1.symm, h1.2⟩ h2
      · exact absurd ⟨h3.2.1.symm, h3.2.2⟩ h1
      · rfl
    · simp only [dstLookup]
      rw [alGet_alSet_ne _ _ _ _ hU, if_neg (by tauto)]
  | none =>
    simp only [dstLookup]
    by_cases hU : U = u
    · rw [hU, alGet_append_single, halG, if_pos rfl]
      show ((List.replicate 512 (none : Option ℕ)).set idx (some v)).getD I none =
          if u = u ∧ I = idx ∧ idx < 512 then some v else none
      rw [getD_set, List.length_replicate]
      split_ifs with h1 h2 h3
      · rfl
      · exact absurd ⟨by trivial, h1.1.symm, h1.2⟩ h2
      · exact absurd ⟨h3.2.1.symm, h3.2.2⟩ h1
      · exact hrep _
    · rw [alGet_append_single, if_neg (show ¬ (U = u ∧ I = idx ∧ idx < 512) from by tauto)]
      cases hUU : alGet st U with
      | some w => rfl
      | none => rw [if_neg hU]

/-- One mapping destination preserves array well-formedness. -/
theorem mappedPTDestStep_wf (value : ℕ) (acc : MappedPTResult) (d : MapDest)
    (h : dstWF acc.dstValues) : dstWF (mappedPTDestStep value acc d).dstValues := by
  unfold mappedPTDestStep
  cases d.targetType
  case universeMaster =>
    cases d.targetUniverseId? with
    | none => exact h
    | some tU => exact h
  case globalMaster => exact h
  case channel =>
    cases d.universe? with
    | none => exact h
    | some dstU =>
      cases d.channel? with
      | none => exact h
      | some dstCh => exact dstWF_dstSet _ _ _ _ h

/-- One mapping destination performs the same write in two runs, so a
slot at which both runs agree stays agreed. -/
theorem mappedPTDestStep_eq (value : ℕ) (d : MapDest) (acc₁ acc₂ : MappedPTResult)
    (U I : ℕ) (hwf₁ : dstWF acc₁.dstValues) (hwf₂ : dstWF acc₂.dstValues)
    (h : dstLookup acc₁.dstValues U I = dstLookup acc₂.dstValues U I) :
    dstLookup (mappedPTDestStep value acc₁ d).dstValues U I =
      dstLookup (mappedPTDestStep value acc₂ d).dstValues U I := by
  unfold mappedPTDestStep
  cases d.targetType
  case universeMaster =>
    cases d.targetUniverseId? <;> simpa using h
  case globalMaster => simpa using h
  case channel =>
    cases d.universe? with
    | none => simpa using h
    | some dstU =>
      cases d.channel? with
      | none => simpa using h
      | some dstCh =>
        simp only
        rw [dstLookup_dstSet _ _ _ _ _ _ hwf₁, dstLookup_dstSet _ _ _ _ _ _ hwf₂]
        split_ifs
        · rfl
        · exact h

/-- Fold version of mappedPTDestStep_wf. -/
theorem mappedPTDestFold_wf (value : ℕ) (dests : List MapDest) (acc : MappedPTResult)
    (h : dstWF acc.dstValues) :
    dstWF ((dests.foldl (mappedPTDestStep value) acc).dstValues) := by
  induction dests generalizing acc with
  | nil => exact h
  | cons hd tl ih => exact ih _ (mappedPTDestStep_wf _ _ _ h)

/-- Fold version of mappedPTDestStep_eq. -/
theorem mappedPTDestFold_eq (value : ℕ) (dests : List MapDest)
    (acc₁ acc₂ : MappedPTResult) (U I : ℕ)
    (hwf₁ : dstWF acc₁.dstValues) (hwf₂ : dstWF acc₂.dstValues)
    (h : dstLookup acc₁.dstValues U I = dstLookup acc₂.dstValues U I) :
    dstLookup ((dests.foldl (mappedPTDestStep value) acc₁).dstValues) U I =
      dstLookup ((dests.foldl (mappedPTDestStep value) acc₂).dstValues) U I := by
  induction dests generalizing acc₁ acc₂ with
  | nil => exact h
  | cons hd tl ih =>
    exact ih _ _ (mappedPTDestStep_wf _ _ _ hwf₁) (mappedPTDestStep_wf _ _ _ hwf₂)
      (mappedPTDestStep_eq _ _ _ _ _ _ hwf₁ hwf₂ h)

/-- One source-channel step preserves array well-formedness. -/
theorem mappedPTStep_wf (cmap : List ((ℕ × ℕ) × List MapDest)) (ub : String)
    (cs ce srcU : ℕ) (input : List ℕ) (acc : MappedPTResult) (srcCh : ℕ)
    (h : dstWF acc.dstValues) :
    dstWF ((mappedPTStep cmap ub cs ce srcU input acc srcCh).dstValues) := by
  unfold mappedPTStep
  by_cases hd : alGetD cmap (srcU, srcCh) [] ≠ []
  · rw [if_pos hd]
    exact mappedPTDestFold_wf _ _ _ h
  · rw [if_neg hd]
    by_cases hub : ub = "passthrough"
    · rw [if_pos hub]
      by_cases hr : srcCh < cs ∨ srcCh > ce
      · rw [if_pos hr]
        exact h
      · rw [if_neg hr]
        by_cases hm : (srcCh - 1) ∈ mappedDestinationIdx cmap srcU srcU
        · rw [if_pos hm]
          exact h
        · rw [if_neg hm]
          exact dstWF_dstSet _ _ _ _ h
    · rw [if_neg hub]
      exact h

/-- Key invariant step: at a slot that is a mapped destination of the
source universe, one source-channel step with unmapped passthrough and
one with unmapped ignore stay in agreement. -/
theorem mappedPTStep_eq (cmap : List ((ℕ × ℕ) × List MapDest))
    (cs ce srcU : ℕ) (input : List ℕ) (dstU idx : ℕ)
    (hidx : idx ∈ mappedDestinationIdx cmap srcU dstU)
    (acc₁ acc₂ : MappedPTResult) (srcCh : ℕ)
    (hwf₁ : dstWF acc₁.dstValues) (hwf₂ : dstWF acc₂.dstValues)
    (h : dstLookup acc₁.dstValues dstU idx = dstLookup acc₂.dstValues dstU idx) :
    dstLookup ((mappedPTStep cmap "passthrough" cs ce srcU input acc₁ srcCh).dstValues)
        dstU idx =
      dstLookup ((mappedPTStep cmap "ignore" cs ce srcU input acc₂ srcCh).dstValues)
        dstU idx := by
  unfold mappedPTStep
  by_cases hd : alGetD cmap (srcU, srcCh) [] ≠ []
  · rw [if_pos hd, if_pos hd]
    exact mappedPTDestFold_eq _ _ _ _ _ _ hwf₁ hwf₂ h
  · rw [if_neg hd, if_neg hd,
      if_pos (show ("passthrough" : String) = "passthrough" from rfl),
      if_neg (show ¬ ("ignore" : String) = "passthrough" by decide)]
    by_cases hr : srcCh < cs ∨ srcCh > ce
    · rw [if_pos hr]
      exact h
    · rw [if_neg hr]
      by_cases hm : (srcCh - 1) ∈ mappedDestinationIdx cmap srcU srcU
      · rw [if_pos hm]
        exact h
      · rw [if_neg hm]
        simp only
        rw [dstLookup_dstSet _ _ _ _ _ _ hwf₁]
        rw [if_neg]
        · exact h
        · rintro ⟨hU, hI, _⟩
          subst hU
          exact hm (hI ▸ hidx)

/-- Fold version of mappedPTStep_eq over any list of source channels. -/
theorem mappedPTFold_eq (cmap : List ((ℕ × ℕ) × List MapDest))
    (cs ce srcU : ℕ) (input : List ℕ) (dstU idx : ℕ)
    (hidx : idx ∈ mappedDestinationIdx cmap srcU dstU)
    (l : List ℕ) (acc₁ acc₂ : MappedPTResult)
    (hwf₁ : dstWF acc₁.dstValues) (hwf₂ : dstWF acc₂.dstValues)
    (h : dstLookup acc₁.dstValues dstU idx = dstLookup acc₂.dstValues dstU idx) :
    dstLookup ((l.foldl (mappedPTStep cmap "passthrough" cs ce srcU input) acc₁).dstValues)
        dstU idx =
      dstLookup ((l.foldl (mappedPTStep cmap "ignore" cs ce srcU input) acc₂).dstValues)
        dstU idx := by
  induction l generalizing acc₁ acc₂ with
  | nil => exact h
  | cons hd tl ih =>
    exact ih _ _ (mappedPTStep_wf _ _ _ _ _ _ _ _ hwf₁)
      (mappedPTStep_wf _ _ _ _ _ _ _ _ hwf₂)
      (mappedPTStep_eq _ _ _ _ _ _ _ hidx _ _ _ hwf₁ hwf₂ h)

/-- Claim C8: during mapped passthrough of one input frame, a slot that
is a mapped (channel-target) destination is never overwritten by
unmapped 1:1 passthrough: the value scheduled for it is identical to the
value computed with unmapped_behavior = ignore, where no unmapped copy
happens at all. -/
theorem mapped_destination_never_overwritten (cmap : List ((ℕ × ℕ) × List MapDest))
    (cs ce srcU : ℕ) (input : List ℕ) (dstU idx : ℕ)
    (hidx : idx ∈ mappedDestinationIdx cmap srcU dstU) :
    dstLookup (applyMappedPassthroughDst cmap "passthrough" cs ce srcU input).dstValues
        dstU idx =
      dstLookup (applyMappedPassthroughDst cmap "ignore" cs ce srcU input).dstValues
        dstU idx := by
  unfold applyMappedPassthroughDst
  exact mappedPTFold_eq cmap cs ce srcU input dstU idx hidx _ _ _
    (by intro p hp ; simp at hp) (by intro p hp ; simp at hp) rfl

/-- Witness for the C8 theorem: with the single mapping (1,10) to (1,3),
destination slot index 2 of universe 1 receives the same value whether
unmapped passthrough is on or off. -/
theorem mapped_destination_never_overwritten_witness :
    dstLookup (applyMappedPassthroughDst c8Cmap "passthrough" 1 512 1
        (List.replicate 512 40)).dstValues 1 2 =
      dstLookup (applyMappedPassthroughDst c8Cmap "ignore" 1 512 1
        (List.replicate 512 40)).dstValues 1 2 :=
  mapped_destination_never_overwritten c8Cmap 1 512 1 _ 1 2 (by decide)

/-- Reading a slot back out of set_all over a same-length natural frame:
the value is clamped to 0-255. -/
theorem set_all_map_getD (channels current : List ℕ) (hlen : current.length = channels.length)
    (i : ℕ) (hi : i < channels.length) (h512 : channels.length ≤ 512) :
    (DMXUniverse.set_all channels (current.map Int.ofNat)).getD i 0 =
      clamp255 (Int.ofNat (current.getD i 0)) := by
  unfold DMXUniverse.set_all
  rw [List.getD_eq_getElem _ _ (by simpa using hi), List.getElem_mapIdx]
  have hv : ((current.map Int.ofNat).take 512)[i]? = some (Int.ofNat (current.getD i 0)) := by
    rw [List.getElem?_take, if_pos (by omega), List.getElem?_map,
      List.getElem?_eq_getElem (by omega), List.getD_eq_getElem _ _ (by omega)]
    rfl
  rw [hv]

/-- A successful lookup splits the association list at its first match. -/
theorem alGet_split {α β : Type} [DecidableEq α] (l : List (α × β)) (k : α) (v : β)
    (h : alGet l k = some v) :
    ∃ l₁ l₂, l = l₁ ++ (k, v) :: l₂ ∧ ∀ p ∈ l₁, p.1 ≠ k := by
  induction l with
  | nil => simp [alGet] at h
  | cons p tl ih =>
    rw [alGet_cons] at h
    split_ifs at h with hp
    · refine ⟨[], tl, ?_, by simp⟩
      have hv := Option.some.inj h
      simp only [List.nil_append]
      congr 1
      calc p = (p.1, p.2) := rfl
        _ = (k, v) := by rw [hp, hv]
    · obtain ⟨l₁, l₂, hl, hfree⟩ := ih h
      exact ⟨p :: l₁, l₂, by rw [hl, List.cons_append],
        fun q hq => by
          rcases List.mem_cons.mp hq with h' | h'
          · exact h' ▸ hp
          · exact hfree q h'⟩

/-- Updating an existing key does not change the key list. -/
theorem alSet_keys {α β : Type} [DecidableEq α] (l : List (α × β)) (k : α) (w v : β)
    (h : alGet l k = some w) : (alSet l k v).map Prod.fst = l.map Prod.fst := by
  induction l with
  | nil => simp [alGet] at h
  | cons p tl ih =>
    rw [alGet_cons] at h
    simp only [alSet]
    split_ifs with hp
    · simp [hp]
    · rw [if_neg hp] at h
      simp [ih h]

/-- A restore step for another universe leaves this universe's frame. -/
theorem releaseRestoreStep_other (st : DMXState) (p : ℕ × List ℕ) (u : ℕ) (h : p.1 ≠ u) :
    alGet (releaseRestoreStep st p).universes u = alGet st.universes u := by
  unfold releaseRestoreStep
  cases halG : alGet st.universes p.1 with
  | none => rfl
  | some chans =>
    rw [sendUniverse_universes]
    exact alGet_alSet_ne _ _ _ _ (Ne.symm h)

/-- The restore step for this universe writes set_all of the stored
frame. -/
theorem releaseRestoreStep_this (st : DMXState) (u : ℕ) (pre chans : List ℕ)
    (h : alGet st.universes u = some chans) :
    alGet (releaseRestoreStep st (u, pre)).universes u =
      some (DMXUniverse.set_all chans (pre.map Int.ofNat)) := by
  unfold releaseRestoreStep
  simp only [h]
  rw [sendUniverse_universes]
  exact alGet_alSet_self ..

/-- A fold of restore steps for other universes leaves this universe's
frame. -/
theorem releaseFold_other (l : List (ℕ × List ℕ)) (st : DMXState) (u : ℕ)
    (h : ∀ p ∈ l, p.1 ≠ u) :
    alGet ((l.foldl releaseRestoreStep st).universes) u = alGet st.universes u := by
  induction l generalizing st with
  | nil => rfl
  | cons hd tl ih =>
    rw [List.foldl_cons, ih _ (fun p hp => h p (List.mem_cons_of_mem _ hp)),
      releaseRestoreStep_other _ _ _ (h hd (List.mem_cons_self ..))]

/-- release_blackout restores the stored pre-blackout frame of a
universe through set_all (keys of the stored map are unique, as for a
Python dict). -/
theorem releaseBlackout_restores (s : DMXState) (u : ℕ) (pre chans : List ℕ)
    (hkeys : (s.preBlackout.map Prod.fst).Nodup)
    (hpre : alGet s.preBlackout u = some pre)
    (hu : alGet s.universes u = some chans) :
    alGet (releaseBlackout s).universes u =
      some (DMXUniverse.set_all chans (pre.map Int.ofNat)) := by
  obtain ⟨l₁, l₂, hl, hfree⟩ := alGet_split _ _ _ hpre
  unfold releaseBlackout
  simp only
  show alGet ((s.preBlackout.foldl releaseRestoreStep
    { s with blackoutActive := false }).universes) u = _
  rw [hl, List.foldl_append, List.foldl_cons]
  have hl₂free : ∀ p ∈ l₂, p.1 ≠ u := by
    intro p hp
    rw [hl] at hkeys
    simp only [List.map_append, List.map_cons, List.nodup_append, List.nodup_cons] at hkeys
    exact fun he => hkeys.2.1.1 (he ▸ List.mem_map_of_mem Prod.fst hp)
  rw [releaseFold_other _ _ _ hl₂free]
  refine releaseRestoreStep_this _ _ _ _ ?_
  rw [releaseFold_other _ _ _ (fun p hp => hfree p hp)]
  exact hu

/-- One blackout step zeroes exactly its universe. -/
theorem blackoutStep_alGet (st : DMXState) (p : ℕ × List ℕ) (u : ℕ) :
    alGet (blackoutStep st p).universes u =
      if p.1 = u then some DMXUniverse.blackoutFrame else alGet st.universes u := by
  unfold blackoutStep
  rw [sendUniverse_universes]
  by_cases h : p.1 = u
  · rw [if_pos h, h]
    exact alGet_alSet_self ..
  · rw [if_neg h]
    exact alGet_alSet_ne _ _ _ _ (Ne.symm h)

/-- A blackout fold over universes not containing u leaves u's frame. -/
theorem blackoutFold_not_mem (l : List (ℕ × List ℕ)) (st : DMXState) (u : ℕ)
    (h : u ∉ l.map Prod.fst) :
    alGet ((l.foldl blackoutStep st).universes) u = alGet st.universes u := by
  induction l generalizing st with
  | nil => rfl
  | cons hd tl ih =>
    rw [List.map_cons, List.mem_cons] at h
    push_neg at h
    rw [List.foldl_cons, ih _ h.2, blackoutStep_alGet, if_neg (fun he => h.1 he.symm)]

/-- A blackout fold over universes containing u zeroes u's frame. -/
theorem blackoutFold_mem (l : List (ℕ × List ℕ)) (st : DMXState) (u : ℕ)
    (h : u ∈ l.map Prod.fst) :
    alGet ((l.foldl blackoutStep st).universes) u = some DMXUniverse.blackoutFrame := by
  induction l generalizing st with
  | nil => simp at h
  | cons hd tl ih =>
    rw [List.foldl_cons]
    by_cases hm : u ∈ tl.map Prod.fst
    · exact ih _ hm
    · have hu : hd.1 = u := by
        rw [List.map_cons, List.mem_cons] at h
        rcases h with h' | h'
        · exact h'.symm
        · exact absurd h' hm
      rw [blackoutFold_not_mem _ _ _ hm, blackoutStep_alGet, if_pos hu]

/-- Resending a universe keeps the policy-override fields. -/
theorem sendUniverse_policyFields (s : DMXState) (u : ℕ) :
    (sendUniverse s u).parkedChannels = s.parkedChannels ∧
    (sendUniverse s u).highlightActive = s.highlightActive ∧
    (sendUniverse s u).highlightedChannels = s.highlightedChannels ∧
    (sendUniverse s u).highlightDimLevel = s.highlightDimLevel ∧
    (sendUniverse s u).universeGrandmasters = s.universeGrandmasters ∧
    (sendUniverse s u).globalGrandmaster = s.globalGrandmaster ∧
    (sendUniverse s u).blackoutActive = s.blackoutActive := by
  unfold sendUniverse
  split <;> exact ⟨rfl, rfl, rfl, rfl, rfl, rfl, rfl⟩

/-- The blackout step keeps the policy-override fields. -/
theorem blackoutStep_fields (st : DMXState) (p : ℕ × List ℕ) :
    (blackoutStep st p).parkedChannels = st.parkedChannels ∧
    (blackoutStep st p).highlightActive = st.highlightActive ∧
    (blackoutStep st p).highlightedChannels = st.highlightedChannels ∧
    (blackoutStep st p).highlightDimLevel = st.highlightDimLevel ∧
    (blackoutStep st p).universeGrandmasters = st.universeGrandmasters ∧
    (blackoutStep st p).globalGrandmaster = st.globalGrandmaster ∧
    (blackoutStep st p).blackoutActive = st.blackoutActive := by
  exact sendUniverse_policyFields { st with preBlackout := alSet st.preBlackout p.1 (alGetD st.universes p.1 []), universes := alSet st.universes p.1 DMXUniverse.blackoutFrame } p.1

/-- blackout keeps the policy-override fields and raises the flag. -/
theorem blackoutOp_fields (s : DMXState) :
    (blackoutOp s).parkedChannels = s.parkedChannels ∧
    (blackoutOp s).highlightActive = s.highlightActive ∧
    (blackoutOp s).highlightedChannels = s.highlightedChannels ∧
    (blackoutOp s).highlightDimLevel = s.highlightDimLevel ∧
    (blackoutOp s).universeGrandmasters = s.universeGrandmasters ∧
    (blackoutOp s).globalGrandmaster = s.globalGrandmaster ∧
    (blackoutOp s).blackoutActive = true := by
  have hfold : ∀ (l : List (ℕ × List ℕ)) (st : DMXState),
      (l.foldl blackoutStep st).parkedChannels = st.parkedChannels ∧
      (l.foldl blackoutStep st).highlightActive = st.highlightActive ∧
      (l.foldl blackoutStep st).highlightedChannels = st.highlightedChannels ∧
      (l.foldl blackoutStep st).highlightDimLevel = st.highlightDimLevel ∧
      (l.foldl blackoutStep st).universeGrandmasters = st.universeGrandmasters ∧
      (l.foldl blackoutStep st).globalGrandmaster = st.globalGrandmaster ∧
      (l.foldl blackoutStep st).blackoutActive = st.blackoutActive := by
    intro l
    induction l with
    | nil => exact fun st => ⟨rfl, rfl, rfl, rfl, rfl, rfl, rfl⟩
    | cons hd tl ih =>
      intro st
      rw [List.foldl_cons]
      obtain ⟨a1, a2, a3, a4, a5, a6, a7⟩ := ih (blackoutStep st hd)
      obtain ⟨b1, b2, b3, b4, b5, b6, b7⟩ := blackoutStep_fields st hd
      exact ⟨a1.trans b1, a2.trans b2, a3.trans b3, a4.trans b4, a5.trans b5,
        a6.trans b6, a7.trans b7⟩
  unfold blackoutOp
  simp only
  obtain ⟨a1, a2, a3, a4, a5, a6, a7⟩ := hfold s.universes
    { s with blackoutActive := true, preBlackout := [] }
  exact ⟨a1, a2, a3, a4, a5, a6, a7⟩

/-- The frame of u after blackout is all zeros. -/
theorem blackoutOp_alGet (s : DMXState) (u : ℕ) (chans : List ℕ)
    (hu : alGet s.universes u = some chans) :
    alGet (blackoutOp s).universes u = some DMXUniverse.blackoutFrame := by
  have hmem : u ∈ s.universes.map Prod.fst :=
    List.mem_map_of_mem Prod.fst (alGet_mem _ _ _ hu)
  unfold blackoutOp
  simp only
  exact blackoutFold_mem s.universes { s with blackoutActive := true, preBlackout := [] } u
    hmem

/-- Overrides on the zero frame with no parked channels and highlight
off give back the zero frame. -/
theorem overrides_zero (s : DMXState) (u : ℕ)
    (hhl : s.highlightActive = false) (hpk : alGetD s.parkedChannels u [] = []) :
    applyChannelOverrides s (List.replicate 512 0) u = List.replicate 512 0 := by
  unfold applyChannelOverrides
  rw [hpk, if_neg (by rw [hhl] ; exact Bool.false_ne_true)]
  rfl

/-- Grandmaster scaling of the zero frame is the zero frame. -/
theorem scaling_zero (s : DMXState) (u : ℕ) :
    applyGrandmasterScaling s (List.replicate 512 0) u = List.replicate 512 0 := by
  simp only [applyGrandmasterScaling]
  split_ifs
  · rfl
  · rw [List.map_replicate]
    congr 1
    norm_num [pythonRound]

/-- wireFrame only reads the universes, park, highlight and grandmaster
fields. -/
theorem wireFrame_fields (s₁ s₂ : DMXState) (u : ℕ)
    (h1 : s₁.universes = s₂.universes) (h2 : s₁.parkedChannels = s₂.parkedChannels)
    (h3 : s₁.highlightActive = s₂.highlightActive)
    (h4 : s₁.highlightedChannels = s₂.highlightedChannels)
    (h5 : s₁.highlightDimLevel = s₂.highlightDimLevel)
    (h6 : s₁.universeGrandmasters = s₂.universeGrandmasters)
    (h7 : s₁.globalGrandmaster = s₂.globalGrandmaster) :
    wireFrame s₁ u = wireFrame s₂ u := by
  unfold wireFrame applyChannelOverrides applyGrandmasterScaling
  rw [h1, h2, h3, h4, h5, h6, h7]

/-- During blackout, set_channel leaves everything except the stored
pre-blackout frames. -/
theorem setChannel_blackout_fields (s : DMXState) (hb : s.blackoutActive = true)
    (u c v : ℕ) (source : String) :
    (setChannel s u c v source false).universes = s.universes ∧
    (setChannel s u c v source false).parkedChannels = s.parkedChannels ∧
    (setChannel s u c v source false).highlightActive = s.highlightActive ∧
    (setChannel s u c v source false).highlightedChannels = s.highlightedChannels ∧
    (setChannel s u c v source false).highlightDimLevel = s.highlightDimLevel ∧
    (setChannel s u c v source false).universeGrandmasters = s.universeGrandmasters ∧
    (setChannel s u c v source false).globalGrandmaster = s.globalGrandmaster := by
  unfold setChannel
  rw [if_pos hb]
  split <;> exact ⟨rfl, rfl, rfl, rfl, rfl, rfl, rfl⟩

/-- Claim C1 counterexample: with channel 5 of universe 1 parked at 50,
activating blackout still emits a wire frame whose slot 5 is 50 — the
emit layer applies park overrides to the zeroed frame, so the wire is
not all zeros. -/
theorem blackout_dominance_claim_false :
    (blackoutOp c1State).blackoutActive = true ∧
    wireFrame (blackoutOp c1State) 1 = some ((List.replicate 512 0).set 4 50) ∧
    wireFrame (blackoutOp c1State) 1 ≠ some (List.replicate 512 0) := by
  refine ⟨?_, ?_, ?_⟩ <;> decide

/-- Claim C1 (amended): while blackout is active, a universe with no
parked channels and highlight inactive emits the all-zero wire frame,
and further channel writes during blackout keep it all-zero; a parked
channel or active highlight, however, still overrides the zeroed frame
at emit (see the counterexample). -/
theorem blackout_wire_zero_when_unparked (s : DMXState) (u : ℕ) (chans : List ℕ)
    (hu : alGet s.universes u = some chans)
    (hpk : alGetD s.parkedChannels u [] = [])
    (hhl : s.highlightActive = false) :
    wireFrame (blackoutOp s) u = some (List.replicate 512 0) ∧
    ∀ u' c v source, wireFrame (setChannel (blackoutOp s) u' c v source false) u =
      some (List.replicate 512 0) := by
  obtain ⟨f1, f2, f3, f4, f5, f6, f7⟩ := blackoutOp_fields s
  have hpkB : alGetD (blackoutOp s).parkedChannels u [] = [] := by
    rw [f1]
    exact hpk
  have hzero : wireFrame (blackoutOp s) u = some (List.replicate 512 0) := by
    have hW : wireFrame (blackoutOp s) u = some (applyGrandmasterScaling (blackoutOp s)
        (applyChannelOverrides (blackoutOp s) (List.replicate 512 0) u) u) := by
      unfold wireFrame
      rw [blackoutOp_alGet s u chans hu]
      rfl
    rw [hW, overrides_zero _ _ (f2.trans hhl) hpkB, scaling_zero]
  refine ⟨hzero, fun u' c v source => ?_⟩
  obtain ⟨g1, g2, g3, g4, g5, g6, g7⟩ :=
    setChannel_blackout_fields (blackoutOp s) f7 u' c v source
  exact (wireFrame_fields _ _ u g1 g2 g3 g4 g5 g6 g7).trans hzero

/-- Concrete instance of the amended blackout theorem on a one-universe
state with nothing parked. -/
theorem blackout_wire_zero_when_unparked_witness :
    wireFrame (blackoutOp c1Plain) 2 = some (List.replicate 512 0) ∧
    wireFrame (setChannel (blackoutOp c1Plain) 2 3 99 "user" false) 2 =
      some (List.replicate 512 0) := by
  obtain ⟨h1, h2⟩ :=
    blackout_wire_zero_when_unparked c1Plain 2 (List.replicate 512 7) rfl rfl rfl
  exact ⟨h1, h2 2 3 99 "user"⟩

/-- Claim C10: while blackout is active, set_channel on an existing
universe leaves the universe's frames and the event trace unchanged and
bypasses the parked-channel check (no park_reject even on a parked
channel), but records the value in the stored pre-blackout frame, so
release_blackout restores that value at the slot. -/
theorem set_channel_during_blackout (s : DMXState) (u c v p : ℕ) (chans pre : List ℕ)
    (source : String)
    (hb : s.blackoutActive = true)
    (hu : alGet s.universes u = some chans) (hchl : chans.length = 512)
    (hpre : alGet s.preBlackout u = some pre) (hplen : pre.length = 512)
    (hkeys : (s.preBlackout.map Prod.fst).Nodup)
    (hc1 : 1 ≤ c) (hc512 : c ≤ 512) (hv : v ≤ 255)
    (hpark : alGet (alGetD s.parkedChannels u []) c = some p) :
    (setChannel s u c v source false).universes = s.universes ∧
    (setChannel s u c v source false).events = s.events ∧
    alGet (setChannel s u c v source false).preBlackout u = some (pre.set (c - 1) v) ∧
    slotRead (releaseBlackout (setChannel s u c v source false)) u (c - 1) = v := by
  have hset : setChannel s u c v source false =
      { s with preBlackout := alSet s.preBlackout u (pre.set (c - 1) v) } := by
    unfold setChannel
    rw [hb]
    simp only [if_true, hu, alGetD, hpre, Option.getD_some]
  rw [hset]
  refine ⟨rfl, rfl, alGet_alSet_self .., ?_⟩
  have hrestore := releaseBlackout_restores
    { s with preBlackout := alSet s.preBlackout u (pre.set (c - 1) v) } u
    (pre.set (c - 1) v) chans
    (by simpa [alSet_keys _ _ _ _ hpre] using hkeys)
    (alGet_alSet_self ..) hu
  simp only [slotRead, alGetD, hrestore, Option.getD_some]
  rw [set_all_map_getD _ _ (by simp [hplen, hchl]) _ (by omega) (by omega)]
  rw [getD_set, if_pos ⟨rfl, by omega⟩]
  simp only [clamp255, Int.ofNat_eq_coe, min_def, max_def]
  split_ifs <;> omega

/-- Witness for the C10 theorem: with blackout active, a parked slot 5
and stored pre-blackout frame, set_channel(1, 5, 123) leaves frames and
events alone, and release_blackout brings slot 5 to 123. -/
theorem set_channel_during_blackout_witness :
    (setChannel
      { universes := [(1, List.replicate 512 0)], blackoutActive := true,
        preBlackout := [(1, (List.replicate 512 0).set 4 200)],
        parkedChannels := [(1, [(5, 50)])] } 1 5 123 "user_a" false).universes =
      [(1, List.replicate 512 0)] ∧
    slotRead (releaseBlackout (setChannel
      { universes := [(1, List.replicate 512 0)], blackoutActive := true,
        preBlackout := [(1, (List.replicate 512 0).set 4 200)],
        parkedChannels := [(1, [(5, 50)])] } 1 5 123 "user_a" false)) 1 4 = 123 := by
  have h := set_channel_during_blackout
    { universes := [(1, List.replicate 512 0)], blackoutActive := true,
      preBlackout := [(1, (List.replicate 512 0).set 4 200)],
      parkedChannels := [(1, [(5, 50)])] } 1 5 123 50
    (List.replicate 512 0) ((List.replicate 512 0).set 4 200) "user_a"
    rfl rfl (by decide) rfl (by decide) (by decide) (by decide) (by decide) (by decide) rfl
  exact ⟨h.1, h.2.2.2⟩

/-- Witness for the C5 theorem at scenario S1 of the spec: local channel
5 at 200 with global grandmaster 128 puts round(200 * 128 / 255) = 100 on
the wire. -/
theorem wire_grandmaster_scaling_formula_witness :
    ∃ w, wireFrame
        { universes := [(1, (List.replicate 512 0).set 4 200)], globalGrandmaster := 128 } 1 =
          some w ∧
      w.getD 4 0 = 100 := by
  obtain ⟨w, hw, he⟩ := wire_grandmaster_scaling_formula
    { universes := [(1, (List.replicate 512 0).set 4 200)], globalGrandmaster := 128 } 1 4
    ((List.replicate 512 0).set 4 200) rfl (by decide) (by decide) (by decide)
  refine ⟨w, hw, ?_⟩
  rw [he]
  have h200 : ((applyChannelOverrides
      { universes := [(1, (List.replicate 512 0).set 4 200)], globalGrandmaster := 128 }
      ((List.replicate 512 0).set 4 200) 1).getD 4 0) = 200 := by decide
  have hgm : (alGetD (DMXState.universeGrandmasters
      { universes := [(1, (List.replicate 512 0).set 4 200)], globalGrandmaster := 128 }) 1 255) =
      255 := by decide
  rw [h200, hgm]
  show (min 255 (round ((200 : ℚ) * ((255 : ℕ) : ℚ) * ((128 : ℕ) : ℚ) / 65025))).toNat = 100
  rw [round_eq]
  norm_num
  decide

/-- The LTP selection fold preserves the frame length. -/
theorem ltpFold_length (input last : List ℕ) (t : ℕ) (l : List ℕ) (cur : List ℕ) :
    (l.foldl
      (fun cur i =>
        if input.getD i 0 = 0 ∨ ((input.getD i 0 : ℤ) - (last.getD i 0 : ℤ)).natAbs > t then
          cur.set i (input.getD i 0)
        else cur) cur).length = cur.length := by
  induction l generalizing cur with
  | nil => rfl
  | cons hd tl ih =>
    simp only [List.foldl_cons]
    rw [ih]
    split_ifs
    · exact List.length_set ..
    · rfl

/-- Slotwise characterization of the LTP selection fold of
applyPassthroughLtpFrame: a slot holds the input value exactly when its
index was visited, its jitter condition fired, and the index is in
range; otherwise it keeps the starting value. -/
theorem ltpFold_getD (input last : List ℕ) (t : ℕ) (l : List ℕ) (cur : List ℕ) (i : ℕ) :
    (l.foldl
      (fun cur i =>
        if input.getD i 0 = 0 ∨ ((input.getD i 0 : ℤ) - (last.getD i 0 : ℤ)).natAbs > t then
          cur.set i (input.getD i 0)
        else cur) cur).getD i 0 =
      if i ∈ l ∧
          (input.getD i 0 = 0 ∨ ((input.getD i 0 : ℤ) - (last.getD i 0 : ℤ)).natAbs > t) ∧
          i < cur.length then
        input.getD i 0
      else cur.getD i 0 := by
  induction l generalizing cur with
  | nil => simp
  | cons hd tl ih =>
    simp only [List.foldl_cons]
    rw [ih]
    by_cases hcond : input.getD hd 0 = 0 ∨
        ((input.getD hd 0 : ℤ) - (last.getD hd 0 : ℤ)).natAbs > t
    · rw [if_pos hcond]
      rw [getD_set]
      by_cases hmem : i ∈ tl ∧
          (input.getD i 0 = 0 ∨ ((input.getD i 0 : ℤ) - (last.getD i 0 : ℤ)).natAbs > t) ∧
          i < cur.length
      · rw [if_pos (by simpa [List.length_set] using hmem),
          if_pos ⟨List.mem_cons_of_mem _ hmem.1, hmem.2⟩]
      · rw [if_neg (by simpa [List.length_set] using hmem)]
        by_cases hhd : hd = i ∧ hd < cur.length
        · obtain ⟨rfl, hl⟩ := hhd
          rw [if_pos ⟨rfl, hl⟩, if_pos ⟨List.mem_cons_self .., hcond, hl⟩]
        · rw [if_neg hhd]
          by_cases hall : i ∈ hd :: tl ∧
              (input.getD i 0 = 0 ∨ ((input.getD i 0 : ℤ) - (last.getD i 0 : ℤ)).natAbs > t) ∧
              i < cur.length
          · exfalso
            rcases List.mem_cons.mp hall.1 with h | h
            · exact hhd ⟨h.symm, h ▸ hall.2.2⟩
            · exact hmem ⟨h, hall.2⟩
          · rw [if_neg hall]
    · rw [if_neg hcond]
      by_cases hall : i ∈ hd :: tl ∧
          (input.getD i 0 = 0 ∨ ((input.getD i 0 : ℤ) - (last.getD i 0 : ℤ)).natAbs > t) ∧
          i < cur.length
      · rcases List.mem_cons.mp hall.1 with h | h
        · exact absurd (h ▸ hall.2.1) hcond
        · rw [if_pos ⟨h, hall.2⟩, if_pos hall]
      · rw [if_neg hall]
        by_cases htl : i ∈ tl ∧
            (input.getD i 0 = 0 ∨ ((input.getD i 0 : ℤ) - (last.getD i 0 : ℤ)).natAbs > t) ∧
            i < cur.length
        · exact absurd ⟨List.mem_cons_of_mem _ htl.1, htl.2⟩ hall
        · rw [if_neg htl]

/-- Claim C6: in LTP passthrough with jitter threshold t, an in-range
input slot is applied only when it is 0 or differs from the last applied
input by more than t; a nonzero input within the threshold leaves the
slot's output value unchanged; and the last-applied record is replaced
by the incoming frame after every frame. -/
theorem ltp_jitter_suppression (channels last input : List ℕ) (cs ce t i : ℕ)
    (hchl : channels.length = 512)
    (hcv : ∀ x ∈ channels, x ≤ 255) (hiv : ∀ x ∈ input, x ≤ 255)
    (hlo : cs - 1 ≤ i) (hhi : i < ce) (hce : ce ≤ 512) :
    (input.getD i 0 ≠ 0 → ((input.getD i 0 : ℤ) - (last.getD i 0 : ℤ)).natAbs ≤ t →
      (applyPassthroughLtpFrame channels last input cs ce t).1.getD i 0 =
        channels.getD i 0) ∧
    ((input.getD i 0 = 0 ∨ ((input.getD i 0 : ℤ) - (last.getD i 0 : ℤ)).natAbs > t) →
      (applyPassthroughLtpFrame channels last input cs ce t).1.getD i 0 =
        input.getD i 0) ∧
    (applyPassthroughLtpFrame channels last input cs ce t).2 = input := by
  have hmem : i ∈ List.range' (cs - 1) (ce - (cs - 1)) := by
    rw [List.mem_range'_1]
    omega
  have hclampch : clamp255 (Int.ofNat (channels.getD i 0)) = channels.getD i 0 := by
    have := getD_le_of_all channels hcv i
    simp only [clamp255, Int.ofNat_eq_coe, min_def, max_def]
    split_ifs <;> omega
  have hclampin : clamp255 (Int.ofNat (input.getD i 0)) = input.getD i 0 := by
    have := getD_le_of_all input hiv i
    simp only [clamp255, Int.ofNat_eq_coe, min_def, max_def]
    split_ifs <;> omega
  refine ⟨?_, ?_, rfl⟩
  · intro h0 hjit
    simp only [applyPassthroughLtpFrame]
    rw [set_all_map_getD _ _ (ltpFold_length ..) i (by omega) (by omega), ltpFold_getD]
    rw [if_neg (by push_neg ; intro _ hc ; omega)]
    exact hclampch
  · intro hc
    simp only [applyPassthroughLtpFrame]
    rw [set_all_map_getD _ _ (ltpFold_length ..) i (by omega) (by omega), ltpFold_getD]
    rw [if_pos ⟨hmem, hc, by omega⟩]
    exact hclampin

/-- Witness for the C6 theorem at scenario S3 of the spec: with the slot
at 100 and last applied 100, input 101 is suppressed (output stays 100),
input 103 exceeds the threshold (output 103), and input 0 always applies
(output 0). -/
theorem ltp_jitter_suppression_witness :
    (applyPassthroughLtpFrame ((List.replicate 512 0).set 0 100)
      ((List.replicate 512 0).set 0 100) ((List.replicate 512 0).set 0 101)
      1 512 2).1.getD 0 0 = 100 ∧
    (applyPassthroughLtpFrame ((List.replicate 512 0).set 0 100)
      ((List.replicate 512 0).set 0 100) ((List.replicate 512 0).set 0 103)
      1 512 2).1.getD 0 0 = 103 ∧
    (applyPassthroughLtpFrame ((List.replicate 512 0).set 0 100)
      ((List.replicate 512 0).set 0 100) (List.replicate 512 0)
      1 512 2).1.getD 0 0 = 0 := by
  refine ⟨?_, ?_, ?_⟩
  · have h := (ltp_jitter_suppression ((List.replicate 512 0).set 0 100)
      ((List.replicate 512 0).set 0 100) ((List.replicate 512 0).set 0 101) 1 512 2 0
      (by decide) (by decide) (by decide) (by decide) (by decide) (by decide)).1
      (by decide) (by decide)
    rw [h]
    decide
  · have h := ((ltp_jitter_suppression ((List.replicate 512 0).set 0 100)
      ((List.replicate 512 0).set 0 100) ((List.replicate 512 0).set 0 103) 1 512 2 0
      (by decide) (by decide) (by decide) (by decide) (by decide) (by decide)).2).1
      (by decide)
    rw [h]
    decide
  · have h := ((ltp_jitter_suppression ((List.replicate 512 0).set 0 100)
      ((List.replicate 512 0).set 0 100) (List.replicate 512 0) 1 512 2 0
      (by decide) (by decide) (by decide) (by decide) (by decide) (by decide)).2).1
      (by decide)
    rw [h]
    decide

/-- Claim C3 counterexample: the claim says an out-of-range value is
silently clamped, so that set(1, 300) on an all-zero frame equals
set(1, 255); the code instead discards the write, leaving slot 1 at 0
while the clamped call sets it to 255. -/
theorem set_channel_clamp_claim_false_at_300 :
    DMXUniverse.set_channel (List.replicate 512 0) 1 300 ≠
      DMXUniverse.set_channel (List.replicate 512 0) 1 255 := by
  decide

/-- Claim C3 (amended): a frame-level set with the channel outside 1-512
or the value outside 0-255 is a silent no-op (the write is discarded, not
clamped); an in-range set stores the value at the 0-indexed slot. -/
theorem set_channel_out_of_range_is_noop (channels : List ℕ) (channel value : ℤ) :
    (¬ (1 ≤ channel ∧ channel ≤ 512 ∧ 0 ≤ value ∧ value ≤ 255) →
        DMXUniverse.set_channel channels channel value = channels) ∧
    ((1 ≤ channel ∧ channel ≤ 512 ∧ 0 ≤ value ∧ value ≤ 255) →
        DMXUniverse.set_channel channels channel value =
          channels.set (channel - 1).toNat value.toNat) := by
  constructor <;> intro h <;> simp [DMXUniverse.set_channel, h]

/-- Witness for the amended C3 theorem at concrete inputs: value 300 is
discarded, value 255 is written. -/
theorem set_channel_out_of_range_is_noop_witness :
    DMXUniverse.set_channel [5, 7] 1 300 = [5, 7] ∧
    DMXUniverse.set_channel [5, 7] 1 255 = [255, 7] := by
  constructor
  · exact (set_channel_out_of_range_is_noop [5, 7] 1 300).1 (by decide)
  · rw [(set_channel_out_of_range_is_noop [5, 7] 1 255).2 (by decide)]
    decide

/-- Claim C4: apply_fade accepts a crossfade flag but never reads it, so
a crossfade recall interpolates from the slot's current value exactly
like a fade; at current 100, target 200, step 1 of 2 both produce 150
while the specified from-zero crossfade would produce 100. -/
theorem crossfade_flag_ignored_by_apply_fade :
    (∀ (cf₁ cf₂ : Bool) (start target step steps : ℕ),
        applyFadeStepValue cf₁ start target step steps =
          applyFadeStepValue cf₂ start target step steps) ∧
    applyFadeStepValue true 100 200 1 2 = 150 ∧
    applyFadeStepValue false 100 200 1 2 = 150 ∧
    specCrossfadeStepValue 200 1 2 = 100 := by
  refine ⟨fun _ _ _ _ _ _ => rfl, ?_, ?_, ?_⟩ <;>
    norm_num [applyFadeStepValue, specCrossfadeStepValue, pythonTrunc]

/-- Claim C9: a received Art-Net datagram shorter than 18 bytes, without
the Art-Net header, with an opcode other than 0x5000, or with a wire
universe different from the configured one is silently dropped (no
callback frame, packet counter unchanged); an accepted packet yields a
512-slot frame equal to the payload right-padded with zeros, and the
counter increments. -/
theorem artnet_packet_filter_and_padding (data : List ℕ) (cfg cnt : ℕ) :
    ((data.length < 18 ∨ data.take 8 ≠ artnetHeaderBytes ∨
        data.getD 8 0 + 256 * data.getD 9 0 ≠ 0x5000 ∨
        data.getD 14 0 + 256 * data.getD 15 0 ≠ cfg) →
      parseArtnetPacket data cfg = none ∧ artnetPacketCount data cfg cnt = cnt) ∧
    (∀ r : ArtNetParsed, parseArtnetPacket data cfg = some r →
      r.channels.length = 512 ∧
      r.channels =
        (data.drop 18).take (min (256 * data.getD 16 0 + data.getD 17 0) 512) ++
          List.replicate
            (512 - ((data.drop 18).take (min (256 * data.getD 16 0 + data.getD 17 0) 512)).length)
            0 ∧
      artnetPacketCount data cfg cnt = cnt + 1) := by
  constructor
  · intro h
    have hnone : parseArtnetPacket data cfg = none := by
      simp only [parseArtnetPacket]
      split_ifs with h1 h2 h3 h4
      · rfl
      · rfl
      · rfl
      · rfl
      · rcases h with h | h | h | h
        · exact absurd h h1
        · exact absurd h h2
        · exact absurd h h3
        · exact absurd h h4
    refine ⟨hnone, ?_⟩
    unfold artnetPacketCount
    rw [hnone]
  · intro r hr
    simp only [parseArtnetPacket] at hr
    split_ifs at hr with h1 h2 h3 h4
    have hlen : ((data.drop 18).take
        (min (256 * data.getD 16 0 + data.getD 17 0) 512)).length ≤ 512 := by
      refine le_trans (List.length_take_le _ _) ?_
      exact min_le_right _ _
    injection hr with hr
    subst hr
    refine ⟨?_, ?_, ?_⟩
    · simp only [List.length_append, List.length_replicate]
      omega
    · rfl
    · unfold artnetPacketCount
      simp only [parseArtnetPacket]
      rw [if_neg h1, if_neg h2, if_neg h3, if_neg h4]

/-- Witness for the C9 theorem: the empty datagram is dropped with the
counter unchanged, and a well-formed 20-byte ArtDmx packet for wire
universe 0 with a 2-byte payload increments the counter. -/
theorem artnet_packet_filter_and_padding_witness :
    (parseArtnetPacket [] 0 = none ∧ artnetPacketCount [] 0 5 = 5) ∧
    artnetPacketCount
      [65, 114, 116, 45, 78, 101, 116, 0, 0, 80, 0, 14, 1, 0, 0, 0, 0, 2, 10, 20] 0 5 = 6 := by
  refine ⟨(artnet_packet_filter_and_padding [] 0 5).1 (Or.inl (by decide)), ?_⟩
  exact ((artnet_packet_filter_and_padding
      [65, 114, 116, 45, 78, 101, 116, 0, 0, 80, 0, 14, 1, 0, 0, 0, 0, 2, 10, 20] 0 5).2
    ⟨1, [10, 20] ++ List.replicate 510 0⟩ (by decide)).2.2


/-! ## Reverse routing of member writes (claim C2) -/

/-- Resending a universe keeps the groups and the local fader values. -/
theorem sendUniverse_groupsLocal (s : DMXState) (u : ℕ) :
    (sendUniverse s u).groups = s.groups ∧
    (sendUniverse s u).localValues = s.localValues := by
  unfold sendUniverse
  split <;> exact ⟨rfl, rfl⟩

/-- A state fold whose step keeps groups and local values keeps them. -/
theorem foldl_groupsLocal {α : Type} (f : DMXState → α → DMXState) (l : List α)
    (s : DMXState)
    (hf : ∀ st a, (f st a).groups = st.groups ∧ (f st a).localValues = st.localValues) :
    (l.foldl f s).groups = s.groups ∧ (l.foldl f s).localValues = s.localValues := by
  induction l generalizing s with
  | nil => exact ⟨rfl, rfl⟩
  | cons hd tl ih =>
    rw [List.foldl_cons]
    obtain ⟨a1, a2⟩ := ih (f s hd)
    obtain ⟨b1, b2⟩ := hf s hd
    exact ⟨a1.trans b1, a2.trans b2⟩

/-- Pair-accumulator version of foldl_groupsLocal. -/
theorem foldlPair_groupsLocal {α γ : Type} (f : DMXState × γ → α → DMXState × γ)
    (l : List α) (acc : DMXState × γ)
    (hf : ∀ ac a, (f ac a).1.groups = ac.1.groups ∧
      (f ac a).1.localValues = ac.1.localValues) :
    (l.foldl f acc).1.groups = acc.1.groups ∧
    (l.foldl f acc).1.localValues = acc.1.localValues := by
  induction l generalizing acc with
  | nil => exact ⟨rfl, rfl⟩
  | cons hd tl ih =>
    rw [List.foldl_cons]
    obtain ⟨a1, a2⟩ := ih (f acc hd)
    obtain ⟨b1, b2⟩ := hf acc hd
    exact ⟨a1.trans b1, a2.trans b2⟩

/-- The global grandmaster setter keeps groups and local values. -/
theorem setGlobalGrandmaster_groupsLocal (s : DMXState) (v : ℤ) :
    (setGlobalGrandmaster s v).groups = s.groups ∧
    (setGlobalGrandmaster s v).localValues = s.localValues := by
  unfold setGlobalGrandmaster
  exact foldl_groupsLocal _ _ _ (fun st p => sendUniverse_groupsLocal st p.1)

/-- The per-universe grandmaster setter keeps groups and local values. -/
theorem setUniverseGrandmaster_groupsLocal (s : DMXState) (u : ℕ) (v : ℤ) :
    (setUniverseGrandmaster s u v).groups = s.groups ∧
    (setUniverseGrandmaster s u v).localValues = s.localValues := by
  unfold setUniverseGrandmaster
  exact sendUniverse_groupsLocal _ u

/-- The color_mixer write step keeps groups and local values. -/
theorem colorMixerStep_groupsLocal (rgb : ℤ × ℤ × ℤ) (m : ℕ)
    (acc : DMXState × List ℕ) (mem : Member) :
    (colorMixerStep rgb m acc mem).1.groups = acc.1.groups ∧
    (colorMixerStep rgb m acc mem).1.localValues = acc.1.localValues := by
  simp only [colorMixerStep]
  repeat' split
  all_goals exact ⟨rfl, rfl⟩

/-- The color_mixer notify step keeps groups and local values. -/
theorem colorMixerNotify_groupsLocal (st : DMXState) (mem : Member) :
    (colorMixerNotify st mem).groups = st.groups ∧
    (colorMixerNotify st mem).localValues = st.localValues := by
  simp only [colorMixerNotify]
  repeat' split
  all_goals exact ⟨rfl, rfl⟩

/-- The contribution step keeps groups and local values. -/
theorem groupContribStep_groupsLocal (group : Group) (gid m : ℕ)
    (acc : DMXState × List (ℕ × ℕ)) (mem : Member) :
    (groupContribStep group gid m acc mem).1.groups = acc.1.groups ∧
    (groupContribStep group gid m acc mem).1.localValues = acc.1.localValues := by
  simp only [groupContribStep]
  cases mem.targetType with
  | universeMaster =>
    cases mem.targetUniverseId? with
    | some tU => exact setUniverseGrandmaster_groupsLocal ..
    | none => exact ⟨rfl, rfl⟩
  | globalMaster => exact setGlobalGrandmaster_groupsLocal ..
  | channel => exact ⟨rfl, rfl⟩

/-- The HTP write step keeps groups and local values. -/
theorem groupHtpStep_groupsLocal (acc : DMXState × List ℕ) (chKey : ℕ × ℕ) :
    (groupHtpStep acc chKey).1.groups = acc.1.groups ∧
    (groupHtpStep acc chKey).1.localValues = acc.1.localValues := by
  simp only [groupHtpStep]
  repeat' split
  all_goals exact ⟨rfl, rfl⟩

/-- The send-and-notify loop keeps groups and local values. -/
theorem groupSendNotify_groupsLocal (affected : List (ℕ × ℕ)) (st : DMXState) (uid : ℕ) :
    (groupSendNotify affected st uid).groups = st.groups ∧
    (groupSendNotify affected st uid).localValues = st.localValues := by
  unfold groupSendNotify
  obtain ⟨a1, a2⟩ := foldl_groupsLocal
    (fun st2 chKey =>
      if chKey.1 = uid then
        match alGet st2.universes uid with
        | none => st2
        | some chans =>
          { st2 with events := st2.events ++
              [DMXEvent.channelChange uid chKey.2
                (DMXUniverse.get_channel chans chKey.2) "group"] }
      else st2) affected (sendUniverse st uid)
    (by
      intro st2 chKey
      dsimp only
      repeat' split
      all_goals exact ⟨rfl, rfl⟩)
  obtain ⟨b1, b2⟩ := sendUniverse_groupsLocal st uid
  exact ⟨a1.trans b1, a2.trans b2⟩

/-- _apply_group never changes the groups dict or the local values. -/
theorem applyGroup_groupsLocal (s : DMXState) (gid m : ℕ) :
    (applyGroup s gid m).groups = s.groups ∧
    (applyGroup s gid m).localValues = s.localValues := by
  unfold applyGroup
  split
  · exact ⟨rfl, rfl⟩
  · rename_i group heq
    by_cases hen : ¬ group.enabled
    · rw [if_pos hen]
      exact ⟨rfl, rfl⟩
    · rw [if_neg hen]
      by_cases hcm : group.mode = GroupMode.colorMixer
      · rw [if_pos hcm]
        obtain ⟨a1, a2⟩ := foldlPair_groupsLocal (colorMixerStep (hslToRgb group.colorState.h group.colorState.s group.colorState.l) m) group.members (s, []) (fun ac a => colorMixerStep_groupsLocal _ _ ac a)
        obtain ⟨b1, b2⟩ := foldl_groupsLocal sendUniverse (group.members.foldl (colorMixerStep (hslToRgb group.colorState.h group.colorState.s group.colorState.l) m) (s, [])).2 (group.members.foldl (colorMixerStep (hslToRgb group.colorState.h group.colorState.s group.colorState.l) m) (s, [])).1 (fun st u => sendUniverse_groupsLocal st u)
        obtain ⟨c1, c2⟩ := foldl_groupsLocal colorMixerNotify group.members (List.foldl sendUniverse (group.members.foldl (colorMixerStep (hslToRgb group.colorState.h group.colorState.s group.colorState.l) m) (s, [])).1 (group.members.foldl (colorMixerStep (hslToRgb group.colorState.h group.colorState.s group.colorState.l) m) (s, [])).2) (fun st a => colorMixerNotify_groupsLocal st a)
        exact ⟨(c1.trans b1).trans a1, (c2.trans b2).trans a2⟩
      · rw [if_neg hcm]
        obtain ⟨a1, a2⟩ := foldlPair_groupsLocal (groupContribStep group gid m) group.members (s, []) (fun ac a => groupContribStep_groupsLocal _ _ _ ac a)
        obtain ⟨b1, b2⟩ := foldlPair_groupsLocal groupHtpStep (group.members.foldl (groupContribStep group gid m) (s, [])).2 ((group.members.foldl (groupContribStep group gid m) (s, [])).1, []) (fun ac a => groupHtpStep_groupsLocal ac a)
        obtain ⟨c1, c2⟩ := foldl_groupsLocal (groupSendNotify (group.members.foldl (groupContribStep group gid m) (s, [])).2) (List.foldl groupHtpStep ((group.members.foldl (groupContribStep group gid m) (s, [])).1, []) (group.members.foldl (groupContribStep group gid m) (s, [])).2).2 (List.foldl groupHtpStep ((group.members.foldl (groupContribStep group gid m) (s, [])).1, []) (group.members.foldl (groupContribStep group gid m) (s, [])).2).1 (fun st u => groupSendNotify_groupsLocal _ st u)
        exact ⟨(c1.trans b1).trans a1, (c2.trans b2).trans a2⟩



/-- Lookup in an empty association list. -/
theorem alGet_nil {α β : Type} [DecidableEq α] (k : α) :
    alGet ([] : List (α × β)) k = none := rfl

/-- Update of an empty association list appends the binding. -/
theorem alSet_nil {α β : Type} [DecidableEq α] (k : α) (v : β) :
    alSet ([] : List (α × β)) k v = [(k, v)] := rfl

/-- Channel c of a singleton batch is parked in no request entry. -/
theorem filter_parked_single (s : DMXState) (u c v : ℕ)
    (hnp : isChannelParked s u c = false) :
    ([(c, v)] : List (ℕ × ℕ)).filter (fun p => isChannelParked s u p.1) = [] := by
  simp [hnp]

/-- Channel c of a singleton batch is live when not parked. -/
theorem filter_live_single (s : DMXState) (u c v : ℕ)
    (hnp : isChannelParked s u c = false) :
    ([(c, v)] : List (ℕ × ℕ)).filter (fun p => ¬ isChannelParked s u p.1) = [(c, v)] := by
  simp [hnp]

/-- Claim C2 counterexample: in a state whose only group is an enabled
follow group with the single member (1, 10) and master 5, the
single-channel entry point set_channel writes the slot directly and
leaves the master at 5, while the batch entry point set_channels
reverse-routes the same write to the master (now 100): the claimed
routing holds only for set_channels, so the two entry points are not
uniform and set_channel does not update the group master. -/
theorem reverse_routing_uniformity_claim_false :
    slotRead (setChannel c2State 1 10 100 "local" false) 1 9 = 100 ∧
    ((setChannel c2State 1 10 100 "local" false).groups.find?
      (fun g => decide (g.id = 3))).map Group.masterValue = some 5 ∧
    ((setChannels c2State 1 [(10, 100)] "local").groups.find?
      (fun g => decide (g.id = 3))).map Group.masterValue = some 100 ∧
    ((setChannel c2State 1 10 100 "local" false).groups.find?
        (fun g => decide (g.id = 3))).map Group.masterValue ≠
      ((setChannels c2State 1 [(10, 100)] "local").groups.find?
        (fun g => decide (g.id = 3))).map Group.masterValue := by
  refine ⟨?_, ?_, ?_, ?_⟩ <;> decide

/-- Claim C2 (amended): reverse routing lives in the batch entry point
set_channels only.  There, a user- or local-source write to an unparked
channel of an existing universe that is a member of exactly one enabled
group whose physical master is unset updates that group master to the
value for a follow group and to min(255, round(value*255/base)) for a
proportional group with positive base, leaving the local fader values
untouched and changing frames only through the group engine; a write to
a channel in two or more enabled groups emits group_reject and leaves
universes, groups and local values unchanged.  The single-channel entry
point set_channel performs no such routing (see the counterexample). -/
theorem set_channels_reverse_routing (s : DMXState) (u c v : ℕ) (source : String)
    (chans : List ℕ)
    (hu : alGet s.universes u = some chans)
    (hsrc : isUserSource source = true)
    (hnp : isChannelParked s u c = false) :
    (∀ g : Group, getGroupsContainingMember s u c = [g] → g.physicalMaster = none →
      (setChannels s u [(c, v)] source).groups =
        storeMasterValue s.groups g.id (memberNewMaster g u c v) ∧
      (setChannels s u [(c, v)] source).localValues = s.localValues) ∧
    (∀ (g1 g2 : Group) (rest : List Group),
      getGroupsContainingMember s u c = g1 :: g2 :: rest →
      (setChannels s u [(c, v)] source).universes = s.universes ∧
      (setChannels s u [(c, v)] source).groups = s.groups ∧
      (setChannels s u [(c, v)] source).localValues = s.localValues ∧
      (setChannels s u [(c, v)] source).events = s.events ++
        [DMXEvent.channelChange u c (DMXUniverse.get_channel chans c) "group_reject"]) := by
  constructor
  · intro g hg hpm
    simp only [setChannels, hu, filter_parked_single s u c v hnp,
      filter_live_single s u c v hnp, List.foldl_cons, List.foldl_nil,
      hsrc, if_true, hg, hpm, alGet_nil, alSet_nil]
    simp only [List.cons_ne_nil, if_false, Bool.false_eq_true, ite_false, ne_eq,
      not_true_eq_false, not_false_eq_true, ite_true]
    rw [List.foldl_cons, List.foldl_nil]
    dsimp only
    simp only [hpm]
    exact ⟨(applyGroup_groupsLocal _ _ _).1, (applyGroup_groupsLocal _ _ _).2⟩
  · intro g1 g2 rest hg
    simp only [setChannels, hu, filter_parked_single s u c v hnp,
      filter_live_single s u c v hnp, List.foldl_cons, List.foldl_nil,
      hsrc, if_true, hg, alGet_nil, alSet_nil]
    simp only [List.cons_ne_nil, if_false, Bool.false_eq_true, ite_false, ne_eq,
      not_true_eq_false, not_false_eq_true, ite_true]
    exact ⟨by trivial, by trivial, by trivial, by trivial⟩

/-- Concrete instance of the amended reverse-routing theorem: the
singleton batch write (10, 100) routes to group 3's master. -/
theorem set_channels_reverse_routing_witness :
    (setChannels c2State 1 [(10, 100)] "local").groups =
      storeMasterValue c2State.groups 3 (memberNewMaster c2Group 1 10 100) ∧
    (setChannels c2State 1 [(10, 100)] "local").localValues = c2State.localValues := by
  have h := (set_channels_reverse_routing c2State 1 10 100 "local"
    (List.replicate 512 0) rfl (by decide) rfl).1 c2Group (by decide) rfl
  exact h

end DMXX
